import Mathlib

/-! # CIR-driven CDS option engine: survival curve, Monte Carlo aggregation, transition sampler

A shallow embedding of

* `McCirCdsOptionEngine::calculate` (`ql/experimental/credit/mccircdsoptionengine.cpp`),
* `CoxIngersollRossProcess::evolve` (`ql/processes/coxingersollrossprocess.hpp`).

Conventions of the embedding.

* The C++ type `Real` (a `double`) is an arbitrary linearly ordered field `R` with a floor
  function; the definitions are executable at `ℚ` and can be read at `ℝ`.  Rounding is outside
  the model.  Where the code divides `sum` by a sample count `0`, or takes the square root of a
  negative `b2`, the value it holds is not a real number, and the embedding says so (`realDiv`,
  `Outcome.nan`); elsewhere a quotient with divisor `0` follows the field convention.
* `std::vector` is `List`; `push_back` appends at the end.
* A `Date` is its serial number, an `Int`.
* The `int` loop counters are natural numbers: signed overflow is undefined behaviour in C++ and
  is reached only after more than `2^31 - 1` iterations.
* A C++ exception (`QL_REQUIRE`, or one raised by a collaborator) is `Except.error` carrying the
  message; the embedding of a function that can throw returns `Except String _`, and that of
  `evolve`, which can also return a NaN, an `Outcome`.
-/

namespace QuantLib

/-! ## The monotonicity repair pass of `McCirCdsOptionEngine::calculate` -/

section Repair

variable {R : Type} [LinearOrderedField R]

/-- One iteration of the body of
`for(int j=0;j<(survivalProbabilities.size()-1);j++)`:
`if(p[j+1]>p[j]) { p[j+1]=p[j]; }`. -/
def repairStep (p : List R) (j : Nat) : List R :=
  if p.getD (j + 1) 0 > p.getD j 0 then p.set (j + 1) (p.getD j 0) else p

/-- The loop `for(int j=0;j<(survivalProbabilities.size()-1);j++)` of
`McCirCdsOptionEngine::calculate`.  The vector keeps its size, so the bound is the size on
entry; the vector always holds the anchor, so `size()-1` does not wrap. -/
def repair (p : List R) : List R :=
  (List.range (p.length - 1)).foldl repairStep p

/-- Structural form of the repair pass: every value is clamped to the (already repaired)
value before it. -/
def clampFrom (prev : R) : List R → List R
  | [] => []
  | x :: xs => (if x > prev then prev else x) :: clampFrom (if x > prev then prev else x) xs

end Repair

/-! ## `McCirCdsOptionEngine` -/

section Engine

variable {R : Type} [LinearOrderedField R] [FloorRing R]

/-- Implicit conversion of a `Real` to the integral `Date::serial_type`, as in
`exerciseDate+j*dt*365`: the fractional part is discarded (truncation toward zero). -/
def toSerial (x : R) : Int := if 0 ≤ x then ⌊x⌋ else ⌈x⌉

/-- The collaborators `McCirCdsOptionEngine::calculate` calls and whose code is outside this
development; each may raise an error.

* `todaysDate`: `Settings::instance().evaluationDate()`;
* `exerciseDate`, `maturityDate`: `cds->protectionStartDate()`, `cds->protectionEndDate()`;
* `yearFraction`: `Actual360().yearFraction`;
* `cirRsg t seed`: the statements from `TimeGrid timeGrid(t,nTimeSteps)` to the construction
  of the path generator `cirRsg`, seeded with `seed`; when they succeed, the function giving
  `path[nTimeSteps]` of the `i`-th call of `cirRsg->next()`;
* `discountBond`: `model_->discountBond`;
* `curveCheck dates probabilities`: the constructor of
  `InterpolatedSurvivalProbabilityCurve<Linear>` on the two vectors;
* `cdsNPV recoveryRate dates probabilities`: `cds->NPV()` with the `MidPointCdsEngine` built on
  that curve, the recovery rate and the discount curve. -/
structure Collaborators (R : Type) where
  todaysDate : Int
  exerciseDate : Int
  maturityDate : Int
  yearFraction : Int → Int → R
  cirRsg : R → R → Except String (Nat → Except String R)
  discountBond : R → R → R → Except String R
  curveCheck : List Int → List R → Except String Unit
  cdsNPV : R → List Int → List R → Except String R

/-- The `Real` data members of `McCirCdsOptionEngine` (`model_` and `discountCurve_` act through
`Collaborators`). -/
structure McCirCdsOptionEngine (R : Type) where
  nSamples_ : R
  seed_ : R
  recoveryRate_ : R

/-- The constructor `McCirCdsOptionEngine::McCirCdsOptionEngine`: it stores its arguments and
registers with the discount curve; it has no precondition. -/
def McCirCdsOptionEngine.construct (nSamples seed recoveryRate : R) :
    Except String (McCirCdsOptionEngine R) :=
  .ok { nSamples_ := nSamples, seed_ := seed, recoveryRate_ := recoveryRate }

/-- The member `results_.value` as a real number; `none` while it holds no real number:
before any write, or after the write of a quotient by `0`. -/
structure Results (R : Type) where
  value : Option R

/-- The quotient `a/b` of two `Real`s as a real number; there is none when the divisor is `0`
(the code then holds a NaN or an infinity). -/
def realDiv (a b : R) : Option R := if b = 0 then none else some (a / b)

/-- The exercise time `t` of `calculate`. -/
def exerciseTime (c : Collaborators R) : R := c.yearFraction c.todaysDate c.exerciseDate

/-- The terminal value `path[nTimeSteps]` of the `i`-th call of `cirRsg->next()`, on the
generator that `calculate` builds for the exercise time and the seed. -/
def Collaborators.cirValue (c : Collaborators R) (seed : R) (i : Nat) : Except String R :=
  match c.cirRsg (exerciseTime c) seed with
  | .error err => .error err
  | .ok next => next i

/-- The date `exerciseDate+j*dt*365` pushed by iteration `j` of the curve loop; the range
check of `Date` arithmetic is outside the model. -/
def curveDate (c : Collaborators R) (dt : R) (j : Nat) : Int :=
  c.exerciseDate + toSerial ((j : R) * dt * 365)

/-- The loop `for(int j=1;j<=nCurveSteps;j++)` of `calculate`, entered at counter `j` with
the vectors `dates` and `survivalProbabilities` built so far.  The counter is compared with
the `Real` `nCurveSteps`. -/
def curveLoop (c : Collaborators R) (t dt nCurveSteps cirValue : R) (j : Nat)
    (dates : List Int) (survivalProbabilities : List R) :
    Except String (List Int × List R) :=
  if (j : R) ≤ nCurveSteps then
    match c.discountBond t (t + j * dt) cirValue with
    | .error err => .error err
    | .ok pr =>
      curveLoop c t dt nCurveSteps cirValue (j + 1)
        (dates ++ [curveDate c dt j])
        (survivalProbabilities ++ [pr])
  else
    .ok (dates, survivalProbabilities)
termination_by ⌊nCurveSteps⌋₊ + 1 - j
decreasing_by
  have hj : j ≤ ⌊nCurveSteps⌋₊ := Nat.le_floor (by assumption)
  omega

/-- The two vectors handed to the curve constructor in one trial: the anchor
`(exerciseDate, 1)`, the points of `curveLoop`, then the repair pass on the probabilities. -/
def curveInputs (c : Collaborators R) (t dt nCurveSteps cirValue : R) :
    Except String (List Int × List R) :=
  match curveLoop c t dt nCurveSteps cirValue 1 [c.exerciseDate] [1] with
  | .error err => .error err
  | .ok (dates, survivalProbabilities) => .ok (dates, repair survivalProbabilities)

/-- The body of the loop over the samples up to `npv= cds->NPV();`, for trial `i`. -/
def trial (e : McCirCdsOptionEngine R) (c : Collaborators R) (t dt nCurveSteps : R) (i : Nat) :
    Except String R :=
  match c.cirValue e.seed_ i with
  | .error err => .error err
  | .ok cirValue =>
    match curveInputs c t dt nCurveSteps cirValue with
    | .error err => .error err
    | .ok (dates, survivalProbabilities) =>
      match c.curveCheck dates survivalProbabilities with
      | .error err => .error err
      | .ok _ => c.cdsNPV e.recoveryRate_ dates survivalProbabilities

/-- The loop `for(int i=0;i<nSamples_;i++)` of `calculate`, entered at counter `i` with the
running `sum`; it returns the final counter (the number of trials run) and the final sum.  The
counter is compared with the `Real` `nSamples_`. -/
def sampleLoop (e : McCirCdsOptionEngine R) (c : Collaborators R) (t dt nCurveSteps : R)
    (i : Nat) (sum : R) : Except String (Nat × R) :=
  if (i : R) < e.nSamples_ then
    match trial e c t dt nCurveSteps i with
    | .error err => .error err
    | .ok npv => sampleLoop e c t dt nCurveSteps (i + 1) (if npv > 0 then sum + npv else sum)
  else
    .ok (i, sum)
termination_by ⌈e.nSamples_⌉₊ - i
decreasing_by
  have hi : i < ⌈e.nSamples_⌉₊ := Nat.lt_ceil.mpr (by assumption)
  omega

/-- The maturity time `T` of `calculate`. -/
def maturityTime (c : Collaborators R) : R := c.yearFraction c.todaysDate c.maturityDate

/-- The local `nCurveSteps=(T-t)*4` of `calculate`. -/
def nCurveSteps (c : Collaborators R) : R := (maturityTime c - exerciseTime c) * 4

/-- The local `dt=(T-t)/nCurveSteps` of `calculate`. -/
def curveDt (c : Collaborators R) : R := (maturityTime c - exerciseTime c) / nCurveSteps c

/-- The sample loop of `calculate` from `sum=0`, `i=0`. -/
def runSamples (e : McCirCdsOptionEngine R) (c : Collaborators R) : Except String (Nat × R) :=
  sampleLoop e c (exerciseTime c) (curveDt c) (nCurveSteps c) 0 0

/-- Embedding of `McCirCdsOptionEngine::calculate` as a transformer of `results_`: the path
generator is built, then the samples are run; an error of either leaves `results_` as it was;
otherwise `results_.value = sum/nSamples_` is written. -/
def calculate (e : McCirCdsOptionEngine R) (c : Collaborators R) (results_ : Results R) :
    Except String Unit × Results R :=
  match c.cirRsg (exerciseTime c) e.seed_ with
  | .error err => (.error err, results_)
  | .ok _ =>
    match runSamples e c with
    | .error err => (.error err, results_)
    | .ok (_, sum) => (.ok (), { results_ with value := realDiv sum e.nSamples_ })

end Engine

/-! ## `CoxIngersollRossProcess` -/

section Process

variable {R : Type} [LinearOrderedField R]

/-- The enumeration `CoxIngersollRossProcess::Discretization`. -/
inductive Discretization where
  | None
  | FullTruncation
  | QuadraticExponentialMartingale
  | Exact
  deriving DecidableEq, Repr

/-- The functions `evolve` calls and whose code is outside this development: `std::exp`,
`std::sqrt`, `std::log`, `CumulativeNormalDistribution::operator()`, the functor
`InverseNonCentralCumulativeChiSquareDistribution(nu, eta, maxEvaluations)` (which may raise),
and the member `CoxIngersollRossProcess::variance(t0, x0, dt)`, declared in the header and
defined elsewhere. -/
structure Functions (R : Type) where
  exp : R → R
  sqrt : R → R
  log : R → R
  cumulativeNormal : R → R
  inverseNonCentralChiSquare : R → R → Nat → R → Except String R
  variance : R → R → R → R

/-- The data members of `CoxIngersollRossProcess`. -/
structure CoxIngersollRossProcess (R : Type) where
  x0_ : R
  speed_ : R
  level_ : R
  volatility_ : R
  discretization_ : Discretization

/-- Modelled from the spec: `StochasticProcess1D::apply`, which the header inherits and whose
code is not part of the sources at hand; the Plain scheme is specified as
`x1 = expectation(t0,x0,dt) + stdDeviation(t0,x0,dt) * shock`, so `apply` adds the change to
the value. -/
def apply (x0 dx : R) : R := x0 + dx

/-- Embedding of `CoxIngersollRossProcess::drift`. -/
def drift (p : CoxIngersollRossProcess R) (_t x : R) : R := p.speed_ * (p.level_ - x)

/-- Embedding of `CoxIngersollRossProcess::diffusion`. -/
def diffusion (p : CoxIngersollRossProcess R) (_t _x : R) : R := p.volatility_

/-- Embedding of `CoxIngersollRossProcess::expectation`. -/
def expectation (fn : Functions R) (p : CoxIngersollRossProcess R) (_t0 x0 dt : R) : R :=
  p.level_ + (x0 - p.level_) * fn.exp (-p.speed_ * dt)

/-- Embedding of `CoxIngersollRossProcess::stdDeviation`. -/
def stdDeviation (fn : Functions R) (_p : CoxIngersollRossProcess R) (t x0 dt : R) : R :=
  fn.sqrt (fn.variance t x0 dt)

/-- The outcome of a call of `evolve`: a returned real value (`ok`), a raised error (`error`),
or a returned value that is not a real number (`nan`): `std::sqrt` of a negative number is
NaN, and so is every value computed from it. -/
inductive Outcome (α : Type) where
  | ok : α → Outcome α
  | error : String → Outcome α
  | nan : Outcome α

/-- The branch `case QuadraticExponentialMartingale` of `evolve`; it returns the final values
of the locals `k0` and `resultTrunc`, or the error of a failed `QL_REQUIRE`.  In the
low-variance regime `b = std::sqrt(b2)` enters `resultTrunc` and nothing else (the
`QL_REQUIRE` does not use it): for `b2 < 0` the branch returns normally with a NaN. -/
def evolveQuadraticExponential (fn : Functions R) (p : CoxIngersollRossProcess R)
    (x0 dt dw : R) : Outcome (R × R) :=
  let rho_ : R := 0
  let ex := fn.exp (-p.speed_ * dt)
  let m := p.level_ + (x0 - p.level_) * ex
  let s2 := x0 * p.volatility_ * p.volatility_ * ex / p.speed_ * (1 - ex)
            + p.level_ * p.volatility_ * p.volatility_ / (2 * p.speed_) * (1 - ex) * (1 - ex)
  let psi := s2 / (m * m)
  let g1 : R := 1 / 2
  let g2 : R := 1 / 2
  let k0 := -rho_ * p.speed_ * p.level_ * dt / p.volatility_
  let k1 := g1 * dt * (p.speed_ * rho_ / p.volatility_ - 1 / 2) - rho_ / p.volatility_
  let k2 := g2 * dt * (p.speed_ * rho_ / p.volatility_ - 1 / 2) + rho_ / p.volatility_
  let k3 := g1 * dt * (1 - rho_ * rho_)
  let k4 := g2 * dt * (1 - rho_ * rho_)
  let A := k2 + 1 / 2 * k4
  if psi < 3 / 2 then
    let b2 := 2 / psi - 1 + fn.sqrt (2 / psi * (2 / psi - 1))
    let b := fn.sqrt b2
    let a := m / (1 + b2)
    if p.discretization_ = Discretization.QuadraticExponentialMartingale then
      if A < 1 / (2 * a) then
        if 0 ≤ b2 then
          .ok (-A * b2 * a / (1 - 2 * A * a) + 1 / 2 * fn.log (1 - 2 * A * a)
                - (k1 + 1 / 2 * k3) * x0,
               a * (b + dw) * (b + dw))
        else
          .nan
      else
        .error "illegal value"
    else
      if 0 ≤ b2 then .ok (k0, a * (b + dw) * (b + dw)) else .nan
  else
    let pp := (psi - 1) / (psi + 1)
    let beta := (1 - pp) / m
    let u := fn.cumulativeNormal dw
    if p.discretization_ = Discretization.QuadraticExponentialMartingale then
      if A < beta then
        .ok (-fn.log (pp + beta * (1 - pp) / (beta - A)) - (k1 + 1 / 2 * k3) * x0,
             if u ≤ pp then 0 else fn.log ((1 - pp) / (1 - u)) / beta)
      else
        .error "illegal value"
    else
      .ok (k0, if u ≤ pp then 0 else fn.log ((1 - pp) / (1 - u)) / beta)

/-- Embedding of `CoxIngersollRossProcess::evolve`. -/
def evolve (fn : Functions R) (p : CoxIngersollRossProcess R) (t0 x0 dt dw : R) :
    Outcome R :=
  match p.discretization_ with
  | Discretization.None =>
    .ok (apply (expectation fn p t0 x0 dt) (stdDeviation fn p t0 x0 dt * dw))
  | Discretization.FullTruncation =>
    let x0_trunc := if x0 > 0 then x0 else 0
    let result := apply (expectation fn p t0 x0_trunc dt) (stdDeviation fn p t0 x0_trunc dt * dw)
    .ok (if result > 0 then result else 0)
  | Discretization.QuadraticExponentialMartingale =>
    match evolveQuadraticExponential fn p x0 dt dw with
    | .error err => .error err
    | .nan => .nan
    | .ok (_, resultTrunc) => .ok resultTrunc
  | Discretization.Exact =>
    let uniform := fn.cumulativeNormal dw
    let c := (4 * p.speed_) / (p.volatility_ * p.volatility_ * (1 - fn.exp (-p.speed_ * dt)))
    let nu := (4 * p.speed_ * p.level_) / (p.volatility_ * p.volatility_)
    let eta := c * x0 * fn.exp (-p.speed_ * dt)
    match fn.inverseNonCentralChiSquare nu eta 100 uniform with
    | .error err => .error err
    | .ok q => .ok (q / c)

/-! ### The locals of the quadratic-exponential branch, by name -/

/-- The local `m` of the quadratic-exponential branch of `evolve`. -/
def qeM (fn : Functions R) (p : CoxIngersollRossProcess R) (x0 dt : R) : R :=
  p.level_ + (x0 - p.level_) * fn.exp (-p.speed_ * dt)

/-- The local `s2` of the quadratic-exponential branch of `evolve`. -/
def qeS2 (fn : Functions R) (p : CoxIngersollRossProcess R) (x0 dt : R) : R :=
  x0 * p.volatility_ * p.volatility_ * fn.exp (-p.speed_ * dt) / p.speed_
      * (1 - fn.exp (-p.speed_ * dt))
    + p.level_ * p.volatility_ * p.volatility_ / (2 * p.speed_)
      * (1 - fn.exp (-p.speed_ * dt)) * (1 - fn.exp (-p.speed_ * dt))

/-- The local `psi = s2/(m*m)` of the quadratic-exponential branch of `evolve`. -/
def qePsi (fn : Functions R) (p : CoxIngersollRossProcess R) (x0 dt : R) : R :=
  qeS2 fn p x0 dt / (qeM fn p x0 dt * qeM fn p x0 dt)

/-- The local `A = k2+0.5*k4` of the quadratic-exponential branch of `evolve`, with `rho_ = 0`
and `g2 = 0.5`. -/
def qeA (p : CoxIngersollRossProcess R) (dt : R) : R :=
  let rho_ : R := 0
  let g2 : R := 1 / 2
  let k2 := g2 * dt * (p.speed_ * rho_ / p.volatility_ - 1 / 2) + rho_ / p.volatility_
  let k4 := g2 * dt * (1 - rho_ * rho_)
  k2 + 1 / 2 * k4

/-- The local `b2` of the low-variance regime. -/
def qeB2 (fn : Functions R) (p : CoxIngersollRossProcess R) (x0 dt : R) : R :=
  2 / qePsi fn p x0 dt - 1 + fn.sqrt (2 / qePsi fn p x0 dt * (2 / qePsi fn p x0 dt - 1))

/-- The local `b = sqrt(b2)` of the low-variance regime. -/
def qeB (fn : Functions R) (p : CoxIngersollRossProcess R) (x0 dt : R) : R :=
  fn.sqrt (qeB2 fn p x0 dt)

/-- The local `a = m/(1+b2)` of the low-variance regime. -/
def qeLowA (fn : Functions R) (p : CoxIngersollRossProcess R) (x0 dt : R) : R :=
  qeM fn p x0 dt / (1 + qeB2 fn p x0 dt)

/-- The local `p = (psi-1)/(psi+1)` of the high-variance regime. -/
def qeP (fn : Functions R) (p : CoxIngersollRossProcess R) (x0 dt : R) : R :=
  (qePsi fn p x0 dt - 1) / (qePsi fn p x0 dt + 1)

/-- The local `beta = (1-p)/m` of the high-variance regime. -/
def qeBeta (fn : Functions R) (p : CoxIngersollRossProcess R) (x0 dt : R) : R :=
  (1 - qeP fn p x0 dt) / qeM fn p x0 dt

/-- The local `c` of the branch `case Exact` of `evolve`. -/
def exactC (fn : Functions R) (p : CoxIngersollRossProcess R) (dt : R) : R :=
  (4 * p.speed_) / (p.volatility_ * p.volatility_ * (1 - fn.exp (-p.speed_ * dt)))

/-- The local `nu` of the branch `case Exact` of `evolve`. -/
def exactNu (p : CoxIngersollRossProcess R) : R :=
  (4 * p.speed_ * p.level_) / (p.volatility_ * p.volatility_)

/-- The local `eta` of the branch `case Exact` of `evolve`. -/
def exactEta (fn : Functions R) (p : CoxIngersollRossProcess R) (x0 dt : R) : R :=
  exactC fn p dt * x0 * fn.exp (-p.speed_ * dt)

/-! ### `CirHelperProcess` -/

/-- The data members of `CirHelperProcess`. -/
structure CirHelperProcess (R : Type) where
  y0_ : R
  theta_ : R
  k_ : R
  sigma_ : R

/-- Embedding of `CirHelperProcess::drift`; `std::fabs` is the absolute value. -/
def CirHelperProcess.drift (h : CirHelperProcess R) (_t y : R) : R :=
  if |y| < 1 / 1000 then
    0
  else
    (1 / 2 * h.theta_ * h.k_ - 1 / 8 * h.sigma_ * h.sigma_) / y - 1 / 2 * h.k_ * y

/-- Embedding of `CirHelperProcess::diffusion`. -/
def CirHelperProcess.diffusion (h : CirHelperProcess R) (_t _y : R) : R := 1 / 2 * h.sigma_

end Process

/-! ## Concrete data -/

section Examples

/-- The Actual/360 year fraction between two serial numbers, for the concrete data. -/
def actual360 (d1 d2 : Int) : ℚ := ((d2 - d1 : Int) : ℚ) / 360

/-- Concrete collaborators over `ℚ`: exercise after 360 days, maturity 180 days later; the
`i`-th terminal value is `i`; the bond is the affine `1 + (x - 1)(T - t)`, which rises above 1
for `x > 1`; the valuer returns the sum of the probabilities minus `5/2`. -/
def sampleCollaborators : Collaborators ℚ where
  todaysDate := 0
  exerciseDate := 360
  maturityDate := 540
  yearFraction := actual360
  cirRsg := fun _ _ => .ok (fun i => .ok (i : ℚ))
  discountBond := fun t T x => .ok (1 + (x - 1) * (T - t))
  curveCheck := fun _ _ => .ok ()
  cdsNPV := fun _ _ ps => .ok (ps.sum - 5 / 2)

/-- The concrete collaborators with the maturity 108 days (`0.3` years) after the exercise. -/
def shortCollaborators : Collaborators ℚ :=
  { sampleCollaborators with maturityDate := 468 }

/-- The concrete collaborators with a valuer that raises once the probabilities sum to 3 or
more, which first happens on trial 1. -/
def failingCollaborators : Collaborators ℚ :=
  { sampleCollaborators with
    cdsNPV := fun _ _ ps => if ps.sum < 3 then .ok (ps.sum - 5 / 2) else .error "valuer" }

/-- A concrete engine: three samples, seed 42, recovery rate `0.4`. -/
def sampleEngine : McCirCdsOptionEngine ℚ := { nSamples_ := 3, seed_ := 42, recoveryRate_ := 2 / 5 }

/-- A concrete engine with a negative sample count. -/
def negativeEngine : McCirCdsOptionEngine ℚ :=
  { nSamples_ := -1, seed_ := 42, recoveryRate_ := 2 / 5 }

/-- The state of `results_` before any value is written. -/
def emptyResults : Results ℚ := { value := none }

/-- The payoffs of the first three trials on the concrete collaborators. -/
def sampleNpv (i : Nat) : ℚ := if i = 0 then -1 / 4 else 1 / 2

/-- Concrete functions over `ℚ` standing in for the transcendental ones; they agree with them
at `exp 0 = 1`, `sqrt 0 = 0`, `sqrt 1 = 1`, `log 1 = 0`, `Φ 0 = 1/2`, and the variance
`x0 * dt` vanishes at `dt = 0`.  The stand-in logarithm is non-negative from 1 on and the
stand-in distribution function stays below 1. -/
def sampleFunctions : Functions ℚ where
  exp := fun x => 1 + x
  sqrt := fun x => x
  log := fun x => x - 1
  cumulativeNormal := fun _ => 1 / 2
  inverseNonCentralChiSquare := fun _ _ _ _ => .ok 0
  variance := fun _ x0 dt => x0 * dt

/-- A concrete process under the full-truncation scheme. -/
def truncationProcess : CoxIngersollRossProcess ℚ :=
  { x0_ := 1, speed_ := 1, level_ := 1, volatility_ := 1,
    discretization_ := Discretization.FullTruncation }

/-- A concrete process under the plain scheme. -/
def plainProcess : CoxIngersollRossProcess ℚ :=
  { x0_ := 1, speed_ := 1, level_ := 1, volatility_ := 1,
    discretization_ := Discretization.None }

/-- A concrete process under the quadratic-exponential scheme. -/
def quadraticProcess : CoxIngersollRossProcess ℚ :=
  { x0_ := 1, speed_ := 1, level_ := 1, volatility_ := 1,
    discretization_ := Discretization.QuadraticExponentialMartingale }

/-- A concrete process under the exact scheme. -/
def exactProcess : CoxIngersollRossProcess ℚ :=
  { x0_ := 1, speed_ := 1, level_ := 1, volatility_ := 1,
    discretization_ := Discretization.Exact }

/-- The concrete functions with a stand-in for the inversion that returns the mean `nu + eta`
of the distribution. -/
def exactFunctions : Functions ℚ :=
  { sampleFunctions with inverseNonCentralChiSquare := fun nu eta _ _ => .ok (nu + eta) }

/-- A concrete process under the quadratic-exponential scheme with volatility 2, for which
`psi = 3/2` at `x0 = 1`, `dt = 1/2` under the concrete functions. -/
def volatileProcess : CoxIngersollRossProcess ℚ :=
  { x0_ := 1, speed_ := 1, level_ := 1, volatility_ := 2,
    discretization_ := Discretization.QuadraticExponentialMartingale }

/-- A concrete helper process. -/
def sampleHelper : CirHelperProcess ℚ := { y0_ := 1, theta_ := 1, k_ := 1, sigma_ := 1 }

/-- A concrete process under the quadratic-exponential scheme with a negative level, for which
`m = -1/8` and `psi = 4` at `x0 = 3/4`, `dt = 1/2` under the concrete functions. -/
def invertedProcess : CoxIngersollRossProcess ℚ :=
  { x0_ := 3 / 4, speed_ := 1, level_ := -1, volatility_ := 1,
    discretization_ := Discretization.QuadraticExponentialMartingale }

/-- A concrete engine with the fractional sample count `2.5`. -/
def fractionalEngine : McCirCdsOptionEngine ℚ :=
  { nSamples_ := 5 / 2, seed_ := 42, recoveryRate_ := 2 / 5 }

/-- The concrete collaborators with a valuer whose net present value is negative on every
curve (the probabilities sum to at most 3). -/
def worthlessCollaborators : Collaborators ℚ :=
  { sampleCollaborators with cdsNPV := fun _ _ ps => .ok (ps.sum - 5) }

/-- The payoffs of the trials on the worthless collaborators. -/
def worthlessNpv (i : Nat) : ℚ := if i = 0 then -11 / 4 else -2

/-- A concrete engine with the sample count `0`. -/
def zeroEngine : McCirCdsOptionEngine ℚ := { nSamples_ := 0, seed_ := 42, recoveryRate_ := 2 / 5 }

/-- A state of `results_` that holds the real value `1`. -/
def writtenResults : Results ℚ := { value := some 1 }

end Examples

/-! ## Lemmas on the repair pass -/

section RepairLemmas

variable {R : Type} [LinearOrderedField R]

theorem repairStep_at (pre : List R) (a x : R) (xs : List R) :
    repairStep (pre ++ a :: x :: xs) pre.length
      = pre ++ a :: (if x > a then a else x) :: xs := by
  have h0 : (pre ++ a :: x :: xs).getD pre.length 0 = a := by
    rw [List.getD_eq_getElem?_getD, List.getElem?_append_right (le_refl _)]
    simp
  have h1 : (pre ++ a :: x :: xs).getD (pre.length + 1) 0 = x := by
    rw [List.getD_eq_getElem?_getD, List.getElem?_append_right (Nat.le_succ _)]
    simp
  unfold repairStep
  rw [h0, h1]
  by_cases h : x > a
  · simp only [h, if_true]
    rw [List.set_append_right _ _ (by omega)]
    simp
  · simp only [h, if_false]

theorem foldl_repairStep (xs : List R) (pre : List R) (a : R) :
    (List.range' pre.length xs.length).foldl repairStep (pre ++ a :: xs)
      = pre ++ a :: clampFrom a xs := by
  induction xs generalizing pre a with
  | nil => simp [clampFrom]
  | cons x xs ih =>
    rw [List.length_cons, List.range'_succ, List.foldl_cons, repairStep_at]
    have := ih (pre ++ [a]) (if x > a then a else x)
    simp only [List.length_append, List.length_singleton, List.append_assoc,
      List.singleton_append] at this
    rw [this]
    simp [clampFrom]

theorem repair_cons (a : R) (xs : List R) : repair (a :: xs) = a :: clampFrom a xs := by
  have := foldl_repairStep xs [] a
  simpa [repair, List.range_eq_range'] using this

theorem clampFrom_length (prev : R) (xs : List R) : (clampFrom prev xs).length = xs.length := by
  induction xs generalizing prev with
  | nil => rfl
  | cons x xs ih => simp [clampFrom, ih]

theorem clampFrom_chain (prev : R) (xs : List R) :
    List.Chain (fun a b => b ≤ a) prev (clampFrom prev xs) := by
  induction xs generalizing prev with
  | nil => exact List.Chain.nil
  | cons x xs ih =>
    refine List.Chain.cons ?_ (ih _)
    split_ifs with h
    · exact le_refl _
    · exact not_lt.mp h

theorem floor_step_eq (sum npv : R) :
    (if npv > 0 then sum + npv else sum) = sum + max npv 0 := by
  split_ifs with h
  · rw [max_eq_left (le_of_lt h)]
  · rw [max_eq_right (not_lt.mp h), add_zero]

theorem repair_head (p : List R) : (repair p).head? = p.head? := by
  cases p with
  | nil => rfl
  | cons a xs => rw [repair_cons]; rfl

theorem repair_anchor_chain (raw : List R) :
    List.Chain' (fun a b => b ≤ a) (repair (1 :: raw)) := by
  rw [repair_cons]
  exact clampFrom_chain 1 raw

theorem realDiv_of_ne (a b : R) (h : b ≠ 0) : realDiv a b = some (a / b) := by
  rw [realDiv, if_neg h]

theorem realDiv_zero (a : R) : realDiv a 0 = none := by
  rw [realDiv, if_pos rfl]

end RepairLemmas

section GeneratorLemmas

variable {R : Type}

/-- A terminal value was drawn only if the path generator was built. -/
theorem cirRsg_of_cirValue (c : Collaborators R) (seed : R) (i : Nat) (x : R)
    (h : c.cirValue seed i = .ok x) :
    ∃ next, c.cirRsg (exerciseTime c) seed = .ok next := by
  unfold Collaborators.cirValue at h
  cases hg : c.cirRsg (exerciseTime c) seed with
  | error err => rw [hg] at h; cases h
  | ok next => exact ⟨next, rfl⟩

end GeneratorLemmas

/-! ## Lemmas on the curve loop -/

section CurveLemmas

variable {R : Type} [LinearOrderedField R] [FloorRing R]

theorem curveLoop_stop (c : Collaborators R) (t dt n x : R) (j : Nat) (ds : List Int)
    (ps : List R) (h : ¬ (j : R) ≤ n) : curveLoop c t dt n x j ds ps = .ok (ds, ps) := by
  rw [curveLoop, if_neg h]

theorem curveLoop_step (c : Collaborators R) (t dt n x : R) (j : Nat) (ds : List Int)
    (ps : List R) (h : (j : R) ≤ n) (pr : R)
    (hb : c.discountBond t (t + j * dt) x = .ok pr) :
    curveLoop c t dt n x j ds ps
      = curveLoop c t dt n x (j + 1) (ds ++ [curveDate c dt j]) (ps ++ [pr]) := by
  rw [curveLoop, if_pos h, hb]

theorem curveLoop_fail (c : Collaborators R) (t dt n x : R) (j : Nat) (ds : List Int)
    (ps : List R) (h : (j : R) ≤ n) (err : String)
    (hb : c.discountBond t (t + j * dt) x = .error err) :
    curveLoop c t dt n x j ds ps = .error err := by
  rw [curveLoop, if_pos h, hb]

/-- A successful curve loop entered at `j ≥ 1` appends exactly `⌊nCurveSteps⌋₊ + 1 - j` points:
the dates of the iterations `j, j+1, …` and the discount bonds evaluated there. -/
theorem curveLoop_ok_shape (c : Collaborators R) (t dt n x : R) :
    ∀ (k j : Nat) (ds : List Int) (ps : List R) (ds' : List Int) (ps' : List R),
      1 ≤ j → ⌊n⌋₊ + 1 - j = k → curveLoop c t dt n x j ds ps = .ok (ds', ps') →
      ds' = ds ++ (List.range' j k).map (curveDate c dt) ∧
      ∃ raw : List R, ps' = ps ++ raw ∧
        List.Forall₂ (fun (i : Nat) (r : R) => c.discountBond t (t + (i : R) * dt) x = .ok r)
          (List.range' j k) raw := by
  intro k
  induction k with
  | zero =>
    intro j ds ps ds' ps' hj hk h
    have hstop : ¬ (j : R) ≤ n := by
      intro hle
      have := (Nat.le_floor_iff' (by omega : j ≠ 0)).mpr hle
      omega
    rw [curveLoop_stop c t dt n x j ds ps hstop] at h
    simp only [Except.ok.injEq, Prod.mk.injEq] at h
    obtain ⟨h1, h2⟩ := h
    subst h1 h2
    exact ⟨by simp, [], by simp, by simp⟩
  | succ k ih =>
    intro j ds ps ds' ps' hj hk h
    have hgo : (j : R) ≤ n := (Nat.le_floor_iff' (by omega : j ≠ 0)).mp (by omega)
    cases hb : c.discountBond t (t + j * dt) x with
    | error err =>
      rw [curveLoop_fail c t dt n x j ds ps hgo err hb] at h
      cases h
    | ok pr =>
      rw [curveLoop_step c t dt n x j ds ps hgo pr hb] at h
      obtain ⟨hd, raw, hp, hr⟩ := ih (j + 1) _ _ ds' ps' (by omega) (by omega) h
      refine ⟨?_, pr :: raw, ?_, ?_⟩
      · rw [hd, List.range'_succ]; simp
      · rw [hp]; simp
      · rw [List.range'_succ]
        exact List.Forall₂.cons hb hr

/-- When every discount bond of the loop evaluates, the curve loop entered at `j ≥ 1` returns. -/
theorem curveLoop_total (c : Collaborators R) (t dt n x : R) (raw : Nat → R)
    (hraw : ∀ i : Nat, c.discountBond t (t + (i : R) * dt) x = .ok (raw i)) :
    ∀ (k j : Nat) (ds : List Int) (ps : List R),
      1 ≤ j → ⌊n⌋₊ + 1 - j = k →
      curveLoop c t dt n x j ds ps
        = .ok (ds ++ (List.range' j k).map (curveDate c dt), ps ++ (List.range' j k).map raw) := by
  intro k
  induction k with
  | zero =>
    intro j ds ps hj hk
    have hstop : ¬ (j : R) ≤ n := by
      intro hle
      have := (Nat.le_floor_iff' (by omega : j ≠ 0)).mpr hle
      omega
    rw [curveLoop_stop c t dt n x j ds ps hstop]
    simp
  | succ k ih =>
    intro j ds ps hj hk
    have hgo : (j : R) ≤ n := (Nat.le_floor_iff' (by omega : j ≠ 0)).mp (by omega)
    rw [curveLoop_step c t dt n x j ds ps hgo (raw j) (hraw j),
      ih (j + 1) _ _ (by omega) (by omega), List.range'_succ]
    simp

theorem curveInputs_ok_shape (c : Collaborators R) (t dt n x : R) (ds : List Int)
    (ps : List R) (h : curveInputs c t dt n x = .ok (ds, ps)) :
    ds = c.exerciseDate :: (List.range' 1 ⌊n⌋₊).map (curveDate c dt) ∧
    ∃ raw : List R, ps = 1 :: clampFrom 1 raw ∧
      List.Forall₂ (fun (i : Nat) (r : R) => c.discountBond t (t + (i : R) * dt) x = .ok r)
        (List.range' 1 ⌊n⌋₊) raw := by
  unfold curveInputs at h
  cases hl : curveLoop c t dt n x 1 [c.exerciseDate] [1] with
  | error err => rw [hl] at h; cases h
  | ok pr =>
    obtain ⟨ds0, ps0⟩ := pr
    rw [hl] at h
    simp only [Except.ok.injEq, Prod.mk.injEq] at h
    obtain ⟨h1, h2⟩ := h
    obtain ⟨hd, raw, hp, hr⟩ :=
      curveLoop_ok_shape c t dt n x ⌊n⌋₊ 1 _ _ ds0 ps0 (le_refl 1) (by omega) hl
    refine ⟨?_, raw, ?_, hr⟩
    · rw [← h1, hd]; rfl
    · rw [← h2, hp]; exact repair_cons 1 raw

theorem curveInputs_total (c : Collaborators R) (t dt n x : R) (raw : Nat → R)
    (hraw : ∀ i : Nat, c.discountBond t (t + (i : R) * dt) x = .ok (raw i)) :
    curveInputs c t dt n x
      = .ok (c.exerciseDate :: (List.range' 1 ⌊n⌋₊).map (curveDate c dt),
             1 :: clampFrom 1 ((List.range' 1 ⌊n⌋₊).map raw)) := by
  unfold curveInputs
  rw [curveLoop_total c t dt n x raw hraw ⌊n⌋₊ 1 _ _ (le_refl 1) (by omega)]
  simp only [List.singleton_append]
  rw [repair_cons]

end CurveLemmas

/-! ## Lemmas on the sample loop -/

section SampleLemmas

variable {R : Type} [LinearOrderedField R] [FloorRing R]

theorem sampleLoop_stop (e : McCirCdsOptionEngine R) (c : Collaborators R) (t dt n : R)
    (i : Nat) (sum : R) (h : ¬ (i : R) < e.nSamples_) :
    sampleLoop e c t dt n i sum = .ok (i, sum) := by
  rw [sampleLoop, if_neg h]

theorem sampleLoop_step (e : McCirCdsOptionEngine R) (c : Collaborators R) (t dt n : R)
    (i : Nat) (sum : R) (h : (i : R) < e.nSamples_) (npv : R)
    (ht : trial e c t dt n i = .ok npv) :
    sampleLoop e c t dt n i sum
      = sampleLoop e c t dt n (i + 1) (if npv > 0 then sum + npv else sum) := by
  rw [sampleLoop, if_pos h, ht]

theorem sampleLoop_fail (e : McCirCdsOptionEngine R) (c : Collaborators R) (t dt n : R)
    (i : Nat) (sum : R) (h : (i : R) < e.nSamples_) (err : String)
    (ht : trial e c t dt n i = .error err) :
    sampleLoop e c t dt n i sum = .error err := by
  rw [sampleLoop, if_pos h, ht]

/-- The running sum never decreases along the sample loop. -/
theorem sampleLoop_sum_le (e : McCirCdsOptionEngine R) (c : Collaborators R) (t dt n : R) :
    ∀ (d i : Nat) (sum : R) (k : Nat) (s : R),
      ⌈e.nSamples_⌉₊ - i = d → sampleLoop e c t dt n i sum = .ok (k, s) → sum ≤ s := by
  intro d
  induction d with
  | zero =>
    intro i sum k s hd h
    have hstop : ¬ (i : R) < e.nSamples_ := by
      intro hlt
      have := Nat.lt_ceil.mpr hlt
      omega
    rw [sampleLoop_stop e c t dt n i sum hstop] at h
    simp only [Except.ok.injEq, Prod.mk.injEq] at h
    exact le_of_eq h.2
  | succ d ih =>
    intro i sum k s hd h
    have hgo : (i : R) < e.nSamples_ := Nat.lt_ceil.mp (by omega)
    cases ht : trial e c t dt n i with
    | error err =>
      rw [sampleLoop_fail e c t dt n i sum hgo err ht] at h
      cases h
    | ok npv =>
      rw [sampleLoop_step e c t dt n i sum hgo npv ht, floor_step_eq] at h
      have := ih (i + 1) _ k s (by omega) h
      have hmax : (0 : R) ≤ max npv 0 := le_max_right _ _
      linarith

/-- When the trials all return, the sample loop runs `⌈nSamples_⌉₊` of them and sums the
floored payoffs. -/
theorem sampleLoop_total (e : McCirCdsOptionEngine R) (c : Collaborators R) (t dt n : R)
    (npv : Nat → R)
    (htr : ∀ i : Nat, i < ⌈e.nSamples_⌉₊ → trial e c t dt n i = .ok (npv i)) :
    ∀ (d i : Nat), i + d = ⌈e.nSamples_⌉₊ →
      sampleLoop e c t dt n i (∑ k in Finset.range i, max (npv k) 0)
        = .ok (⌈e.nSamples_⌉₊, ∑ k in Finset.range ⌈e.nSamples_⌉₊, max (npv k) 0) := by
  intro d
  induction d with
  | zero =>
    intro i hd
    have hstop : ¬ (i : R) < e.nSamples_ := by
      intro hlt
      have := Nat.lt_ceil.mpr hlt
      omega
    rw [sampleLoop_stop e c t dt n i _ hstop]
    simp only [Nat.add_zero] at hd
    rw [hd]
  | succ d ih =>
    intro i hd
    have hgo : (i : R) < e.nSamples_ := Nat.lt_ceil.mp (by omega)
    rw [sampleLoop_step e c t dt n i _ hgo (npv i) (htr i (by omega)), floor_step_eq,
      ← Finset.sum_range_succ]
    exact ih (i + 1) (by omega)

/-- The first trial that raises aborts the sample loop with its error. -/
theorem sampleLoop_raise (e : McCirCdsOptionEngine R) (c : Collaborators R) (t dt n : R)
    (k : Nat) (err : String) (hk : (k : R) < e.nSamples_)
    (hprev : ∀ i : Nat, i < k → ∃ v, trial e c t dt n i = .ok v)
    (hfail : trial e c t dt n k = .error err) :
    ∀ (d i : Nat) (sum : R), i + d = k → sampleLoop e c t dt n i sum = .error err := by
  intro d
  induction d with
  | zero =>
    intro i sum hd
    simp only [Nat.add_zero] at hd
    subst hd
    exact sampleLoop_fail e c t dt n i sum hk err hfail
  | succ d ih =>
    intro i sum hd
    have hik : i < k := by omega
    have hgo : (i : R) < e.nSamples_ := lt_trans (Nat.cast_lt.mpr hik) hk
    obtain ⟨v, hv⟩ := hprev i hik
    rw [sampleLoop_step e c t dt n i sum hgo v hv]
    exact ih (i + 1) _ (by omega)

/-- The first discount bond that raises aborts the curve loop with its error. -/
theorem curveLoop_raise (c : Collaborators R) (t dt n x : R) (j : Nat) (err : String)
    (hj : (j : R) ≤ n)
    (hprev : ∀ i : Nat, 1 ≤ i → i < j → ∃ v, c.discountBond t (t + (i : R) * dt) x = .ok v)
    (hfail : c.discountBond t (t + (j : R) * dt) x = .error err) :
    ∀ (d i : Nat) (ds : List Int) (ps : List R), 1 ≤ i → i + d = j →
      curveLoop c t dt n x i ds ps = .error err := by
  intro d
  induction d with
  | zero =>
    intro i ds ps _ hd
    simp only [Nat.add_zero] at hd
    subst hd
    exact curveLoop_fail c t dt n x i ds ps hj err hfail
  | succ d ih =>
    intro i ds ps hi hd
    have hij : i < j := by omega
    have hgo : (i : R) ≤ n := le_trans (Nat.cast_le.mpr (le_of_lt hij)) hj
    obtain ⟨v, hv⟩ := hprev i hi hij
    rw [curveLoop_step c t dt n x i ds ps hgo v hv]
    exact ih (i + 1) _ _ (by omega) (by omega)

end SampleLemmas

/-! ## Evaluation of the concrete data -/

section Evaluation

theorem sample_exerciseTime : exerciseTime sampleCollaborators = 1 := by
  norm_num [exerciseTime, sampleCollaborators, actual360]

theorem sample_nCurveSteps : nCurveSteps sampleCollaborators = 2 := by
  norm_num [nCurveSteps, exerciseTime, maturityTime, sampleCollaborators, actual360]

theorem sample_curveDt : curveDt sampleCollaborators = 1 / 4 := by
  norm_num [curveDt, nCurveSteps, exerciseTime, maturityTime, sampleCollaborators, actual360]

theorem toSerial_quarter (j : Nat) (k : Int) (h1 : (k : ℚ) ≤ (j : ℚ) * (1 / 4) * 365)
    (h2 : (j : ℚ) * (1 / 4) * 365 < k + 1) : toSerial ((j : ℚ) * (1 / 4) * 365) = k := by
  have h0 : (0 : ℚ) ≤ (j : ℚ) * (1 / 4) * 365 := by positivity
  rw [toSerial, if_pos h0]
  exact Int.floor_eq_iff.mpr ⟨h1, h2⟩

theorem sample_curveDate (c : Collaborators ℚ) (hd : c.exerciseDate = 360) (j : Nat) (k : Int)
    (h1 : (k : ℚ) ≤ (j : ℚ) * (1 / 4) * 365) (h2 : (j : ℚ) * (1 / 4) * 365 < k + 1) :
    curveDate c (1 / 4) j = 360 + k := by
  rw [curveDate, toSerial_quarter j k h1 h2, hd]

theorem sample_curveInputs (c : Collaborators ℚ)
    (hb : c.discountBond = sampleCollaborators.discountBond) (hd : c.exerciseDate = 360)
    (x : ℚ) :
    curveInputs c 1 (1 / 4) 2 x
      = .ok ([360, 451, 542], 1 :: clampFrom 1 [1 + (x - 1) * (1 / 4), 1 + (x - 1) * (1 / 2)]) := by
  have h := curveInputs_total c 1 (1 / 4) 2 x
    (fun i => 1 + (x - 1) * (1 + (i : ℚ) * (1 / 4) - 1)) (fun i => by rw [hb]; rfl)
  have hf : ⌊(2 : ℚ)⌋₊ = 2 := Nat.floor_ofNat 2
  rw [hf] at h
  rw [h]
  have d1 := sample_curveDate c hd 1 91 (by norm_num) (by norm_num)
  have d2 := sample_curveDate c hd 2 182 (by norm_num) (by norm_num)
  simp only [List.range'_succ, List.range'_zero, List.map_cons, List.map_nil, d1, d2, hd]
  norm_num

end Evaluation

/-! ## Lemmas on `calculate` -/

section CalculateLemmas

variable {R : Type} [LinearOrderedField R] [FloorRing R]

/-- A trial returned only if the path generator was built. -/
theorem cirRsg_of_trial (e : McCirCdsOptionEngine R) (c : Collaborators R) (t dt n : R)
    (i : Nat) (v : R) (h : trial e c t dt n i = .ok v) :
    ∃ next, c.cirRsg (exerciseTime c) e.seed_ = .ok next := by
  unfold trial at h
  cases hx : c.cirValue e.seed_ i with
  | error err => rw [hx] at h; cases h
  | ok x => exact cirRsg_of_cirValue c e.seed_ i x hx

theorem calculate_of_ok (e : McCirCdsOptionEngine R) (c : Collaborators R)
    (results_ : Results R) (next : Nat → Except String R) (k : Nat) (s : R)
    (hgen : c.cirRsg (exerciseTime c) e.seed_ = .ok next)
    (h : runSamples e c = .ok (k, s)) :
    calculate e c results_ = (.ok (), { value := realDiv s e.nSamples_ }) := by
  rw [calculate, hgen, h]

theorem calculate_of_error (e : McCirCdsOptionEngine R) (c : Collaborators R)
    (results_ : Results R) (next : Nat → Except String R) (err : String)
    (hgen : c.cirRsg (exerciseTime c) e.seed_ = .ok next)
    (h : runSamples e c = .error err) :
    calculate e c results_ = (.error err, results_) := by
  rw [calculate, hgen, h]

theorem calculate_of_setup_error (e : McCirCdsOptionEngine R) (c : Collaborators R)
    (results_ : Results R) (err : String)
    (hgen : c.cirRsg (exerciseTime c) e.seed_ = .error err) :
    calculate e c results_ = (.error err, results_) := by
  rw [calculate, hgen]

/-- With a whole sample count `M` and trials that all return, `calculate` runs `M` trials and
writes the mean of the floored payoffs. -/
theorem calculate_total (e : McCirCdsOptionEngine R) (c : Collaborators R)
    (results_ : Results R) (M : Nat) (npv : Nat → R) (hM1 : 1 ≤ M)
    (hM : e.nSamples_ = (M : R))
    (htr : ∀ i : Nat, i < M →
      trial e c (exerciseTime c) (curveDt c) (nCurveSteps c) i = .ok (npv i)) :
    runSamples e c = .ok (M, ∑ i in Finset.range M, max (npv i) 0) ∧
    calculate e c results_
      = (.ok (), { value := some ((∑ i in Finset.range M, max (npv i) 0) / (M : R)) }) := by
  obtain ⟨next, hgen⟩ := cirRsg_of_trial e c _ _ _ 0 (npv 0) (htr 0 (by omega))
  have hne : e.nSamples_ ≠ 0 := by
    rw [hM]
    exact Nat.cast_ne_zero.mpr (by omega)
  have hceil : ⌈e.nSamples_⌉₊ = M := by rw [hM, Nat.ceil_natCast]
  have hrun : runSamples e c = .ok (M, ∑ i in Finset.range M, max (npv i) 0) := by
    have h := sampleLoop_total e c (exerciseTime c) (curveDt c) (nCurveSteps c) npv
      (fun i hi => htr i (by omega)) ⌈e.nSamples_⌉₊ 0 (by omega)
    rw [hceil] at h
    simpa [runSamples] using h
  refine ⟨hrun, ?_⟩
  rw [calculate_of_ok e c results_ next M _ hgen hrun, realDiv_of_ne _ _ hne, hM]

/-- A sample count that is not positive: no trial is run and the sum stays `0`. -/
theorem runSamples_nonpos (e : McCirCdsOptionEngine R) (c : Collaborators R)
    (h : e.nSamples_ ≤ 0) : runSamples e c = .ok (0, 0) := by
  rw [runSamples]
  exact sampleLoop_stop e c _ _ _ 0 0 (by simpa using h)

/-- The sum returned by the sample loop of `calculate` is non-negative. -/
theorem runSamples_nonneg (e : McCirCdsOptionEngine R) (c : Collaborators R) (k : Nat) (s : R)
    (h : runSamples e c = .ok (k, s)) : 0 ≤ s :=
  sampleLoop_sum_le e c _ _ _ _ 0 0 k s rfl h

/-- A trial raises the error of the first discount bond, of the curve constructor or of the
valuer that raises. -/
theorem trial_raise (e : McCirCdsOptionEngine R) (c : Collaborators R) (t dt n : R) (k : Nat)
    (x : R) (err : String) (hx : c.cirValue e.seed_ k = .ok x)
    (hraise :
      (∃ j : Nat, 1 ≤ j ∧ (j : R) ≤ n ∧
        (∀ i : Nat, 1 ≤ i → i < j → ∃ v, c.discountBond t (t + (i : R) * dt) x = .ok v) ∧
        c.discountBond t (t + (j : R) * dt) x = .error err) ∨
      (∃ ds ps, curveInputs c t dt n x = .ok (ds, ps) ∧
        (c.curveCheck ds ps = .error err ∨
          (c.curveCheck ds ps = .ok () ∧ c.cdsNPV e.recoveryRate_ ds ps = .error err)))) :
    trial e c t dt n k = .error err := by
  rw [trial, hx]
  rcases hraise with ⟨j, hj1, hjn, hprev, hfail⟩ | ⟨ds, ps, hc, hrest⟩
  · have hl := curveLoop_raise c t dt n x j err hjn hprev hfail (j - 1) 1
      [c.exerciseDate] [1] (le_refl 1) (by omega)
    simp only [curveInputs, hl]
  · simp only [hc]
    rcases hrest with hcheck | ⟨hcheck, hnpv⟩
    · simp only [hcheck]
    · simp only [hcheck, hnpv]

end CalculateLemmas

/-! ## Evaluation of `calculate` on the concrete data -/

section CalculateEvaluation

/-- The net present value of trial `i` on the concrete collaborators. -/
theorem sample_trial (e : McCirCdsOptionEngine ℚ) (i : Nat) :
    trial e sampleCollaborators 1 (1 / 4) 2 i
      = .ok ((1 :: clampFrom 1 [1 + ((i : ℚ) - 1) * (1 / 4), 1 + ((i : ℚ) - 1) * (1 / 2)]).sum
              - 5 / 2) := by
  have hx : sampleCollaborators.cirValue e.seed_ i = .ok (i : ℚ) := rfl
  rw [trial, hx]
  simp only [sample_curveInputs sampleCollaborators rfl rfl]
  rfl

theorem sample_trial_zero (e : McCirCdsOptionEngine ℚ) :
    trial e sampleCollaborators 1 (1 / 4) 2 0 = .ok (-1 / 4) := by
  rw [sample_trial]; norm_num [clampFrom]

theorem sample_trial_one (e : McCirCdsOptionEngine ℚ) :
    trial e sampleCollaborators 1 (1 / 4) 2 1 = .ok (1 / 2) := by
  rw [sample_trial]; norm_num [clampFrom]

theorem sample_trial_two (e : McCirCdsOptionEngine ℚ) :
    trial e sampleCollaborators 1 (1 / 4) 2 2 = .ok (1 / 2) := by
  rw [sample_trial]; norm_num [clampFrom]

theorem sample_trials (e : McCirCdsOptionEngine ℚ) (i : Nat) (hi : i < 3) :
    trial e sampleCollaborators (exerciseTime sampleCollaborators)
      (curveDt sampleCollaborators) (nCurveSteps sampleCollaborators) i = .ok (sampleNpv i) := by
  rw [sample_exerciseTime, sample_curveDt, sample_nCurveSteps]
  interval_cases i
  · exact sample_trial_zero e
  · exact sample_trial_one e
  · exact sample_trial_two e

theorem sample_floored_sum : (∑ i in Finset.range 3, max (sampleNpv i) 0) = 1 := by
  simp only [Finset.sum_range_succ, Finset.sum_range_zero, sampleNpv]
  norm_num

theorem sample_calculate (results_ : Results ℚ) :
    calculate sampleEngine sampleCollaborators results_
      = (.ok (), { value := some (1 / 3) }) := by
  have h := (calculate_total sampleEngine sampleCollaborators results_ 3 sampleNpv
    (by decide) (by norm_num [sampleEngine]) (fun i hi => sample_trials _ i hi)).2
  rw [h, sample_floored_sum]
  norm_num

theorem failing_exerciseTime : exerciseTime failingCollaborators = 1 := by
  norm_num [exerciseTime, failingCollaborators, sampleCollaborators, actual360]

theorem failing_nCurveSteps : nCurveSteps failingCollaborators = 2 := by
  norm_num [nCurveSteps, exerciseTime, maturityTime, failingCollaborators, sampleCollaborators,
    actual360]

theorem failing_curveDt : curveDt failingCollaborators = 1 / 4 := by
  norm_num [curveDt, nCurveSteps, exerciseTime, maturityTime, failingCollaborators,
    sampleCollaborators, actual360]

theorem failing_curveInputs_zero :
    curveInputs failingCollaborators 1 (1 / 4) 2 0 = .ok ([360, 451, 542], [1, 3 / 4, 1 / 2]) := by
  rw [sample_curveInputs failingCollaborators rfl rfl]; norm_num [clampFrom]

theorem failing_curveInputs_one :
    curveInputs failingCollaborators 1 (1 / 4) 2 1 = .ok ([360, 451, 542], [1, 1, 1]) := by
  rw [sample_curveInputs failingCollaborators rfl rfl]; norm_num [clampFrom]

theorem failing_trial_zero :
    trial sampleEngine failingCollaborators 1 (1 / 4) 2 0 = .ok (-1 / 4) := by
  have hx : failingCollaborators.cirValue sampleEngine.seed_ 0 = .ok 0 := rfl
  rw [trial, hx]
  simp only [failing_curveInputs_zero]
  norm_num [failingCollaborators, sampleCollaborators]

theorem failing_valuer_one :
    failingCollaborators.cdsNPV sampleEngine.recoveryRate_ [360, 451, 542] [1, 1, 1]
      = .error "valuer" := by
  norm_num [failingCollaborators]

theorem short_exerciseTime : exerciseTime shortCollaborators = 1 := by
  norm_num [exerciseTime, shortCollaborators, sampleCollaborators, actual360]

theorem short_maturityTime : maturityTime shortCollaborators = 13 / 10 := by
  norm_num [maturityTime, shortCollaborators, sampleCollaborators, actual360]

theorem short_nCurveSteps : nCurveSteps shortCollaborators = 6 / 5 := by
  norm_num [nCurveSteps, exerciseTime, maturityTime, shortCollaborators, sampleCollaborators,
    actual360]

theorem short_curveDt : curveDt shortCollaborators = 1 / 4 := by
  norm_num [curveDt, nCurveSteps, exerciseTime, maturityTime, shortCollaborators,
    sampleCollaborators, actual360]

theorem short_curveInputs :
    curveInputs shortCollaborators 1 (1 / 4) (6 / 5) 0 = .ok ([360, 451], [1, 3 / 4]) := by
  have h := curveInputs_total shortCollaborators 1 (1 / 4) (6 / 5) 0
    (fun i => 1 + (0 - 1) * (1 + (i : ℚ) * (1 / 4) - 1)) (fun i => rfl)
  have hf : ⌊(6 / 5 : ℚ)⌋₊ = 1 := by
    rw [Nat.floor_eq_iff (by norm_num)]
    norm_num
  rw [hf] at h
  rw [h]
  have d1 := sample_curveDate shortCollaborators rfl 1 91 (by norm_num) (by norm_num)
  have hd : shortCollaborators.exerciseDate = 360 := rfl
  simp only [List.range'_succ, List.range'_zero, List.map_cons, List.map_nil, d1, hd]
  norm_num [clampFrom]

end CalculateEvaluation

/-! ## The survival curve built in `calculate` -/

section CurveClaims

variable {R : Type} [LinearOrderedField R] [FloorRing R]

/-- C1: for every terminal diffusion value `x` and whatever the discount bonds return, the
survival probabilities handed to the curve constructor in `calculate` (the anchor 1, the raw
discount bonds, then the repair pass) are non-increasing: `ps[i] ≥ ps[i+1]` at every index. -/
theorem survivalProbabilities_nonincreasing (c : Collaborators R) (t dt n x : R)
    (ds : List Int) (ps : List R) (h : curveInputs c t dt n x = .ok (ds, ps))
    (i : Nat) (hi : i + 1 < ps.length) :
    ps[i + 1] ≤ ps[i] := by
  obtain ⟨_, raw, hp, _⟩ := curveInputs_ok_shape c t dt n x ds ps h
  have hchain : List.Chain' (fun a b => b ≤ a) ps := by
    rw [hp, ← repair_cons]
    exact repair_anchor_chain raw
  exact List.chain'_iff_get.mp hchain i (by omega)

theorem survivalProbabilities_nonincreasing_witness :
    curveInputs sampleCollaborators 1 (1 / 4) 2 2 = .ok ([360, 451, 542], [1, 1, 1]) ∧
    curveInputs sampleCollaborators 1 (1 / 4) 2 0 = .ok ([360, 451, 542], [1, 3 / 4, 1 / 2]) ∧
    ([1, 3 / 4, 1 / 2] : List ℚ)[1] ≤ ([1, 3 / 4, 1 / 2] : List ℚ)[0] :=
  have h2 : curveInputs sampleCollaborators 1 (1 / 4) 2 2 = .ok ([360, 451, 542], [1, 1, 1]) := by
    rw [sample_curveInputs sampleCollaborators rfl rfl]; norm_num [clampFrom]
  have h0 : curveInputs sampleCollaborators 1 (1 / 4) 2 0
      = .ok ([360, 451, 542], [1, 3 / 4, 1 / 2]) := by
    rw [sample_curveInputs sampleCollaborators rfl rfl]; norm_num [clampFrom]
  ⟨h2, h0, survivalProbabilities_nonincreasing sampleCollaborators 1 (1 / 4) 2 0
    [360, 451, 542] [1, 3 / 4, 1 / 2] h0 0 (by decide)⟩

/-- C2: on every path the first point of the curve built in `calculate` is the exercise date
with probability exactly 1, and the repair pass leaves the first entry of any vector as it
was. -/
theorem curve_anchor (c : Collaborators R) (t dt n x : R) (ds : List Int) (ps : List R)
    (h : curveInputs c t dt n x = .ok (ds, ps)) :
    ds.head? = some c.exerciseDate ∧ ps.head? = some 1 ∧
    ∀ p : List R, (repair p).head? = p.head? := by
  obtain ⟨hd, raw, hp, _⟩ := curveInputs_ok_shape c t dt n x ds ps h
  refine ⟨?_, ?_, repair_head⟩
  · rw [hd]; rfl
  · rw [hp]; rfl

theorem curve_anchor_witness :
    curveInputs sampleCollaborators 1 (1 / 4) 2 2 = .ok ([360, 451, 542], [1, 1, 1]) ∧
    ([360, 451, 542] : List Int).head? = some sampleCollaborators.exerciseDate ∧
    ([1, 1, 1] : List ℚ).head? = some 1 ∧
    ∀ p : List ℚ, (repair p).head? = p.head? :=
  have h2 : curveInputs sampleCollaborators 1 (1 / 4) 2 2 = .ok ([360, 451, 542], [1, 1, 1]) := by
    rw [sample_curveInputs sampleCollaborators rfl rfl]; norm_num [clampFrom]
  ⟨h2, curve_anchor sampleCollaborators 1 (1 / 4) 2 2 [360, 451, 542] [1, 1, 1] h2⟩

end CurveClaims

/-! ## The Monte Carlo aggregation of `calculate` -/

section AggregationClaims

variable {R : Type} [LinearOrderedField R] [FloorRing R]

/-- C3, as the code has it: for every sample count other than `0`, whenever `calculate`
returns, the value it has written to `results_.value` is a real number `≥ 0`, whatever net
present values (of any sign) the trials produced. -/
theorem calculate_value_nonneg (e : McCirCdsOptionEngine R) (c : Collaborators R)
    (results_ : Results R) (hn : e.nSamples_ ≠ 0)
    (h : (calculate e c results_).1 = .ok ()) :
    ∃ v : R, (calculate e c results_).2.value = some v ∧ 0 ≤ v := by
  cases hg : c.cirRsg (exerciseTime c) e.seed_ with
  | error err =>
    rw [calculate_of_setup_error e c results_ err hg] at h
    cases h
  | ok next =>
    cases hr : runSamples e c with
    | error err =>
      rw [calculate_of_error e c results_ next err hg hr] at h
      cases h
    | ok pr =>
      obtain ⟨k, s⟩ := pr
      rw [calculate_of_ok e c results_ next k s hg hr, realDiv_of_ne _ _ hn]
      refine ⟨s / e.nSamples_, rfl, ?_⟩
      have hs : 0 ≤ s := runSamples_nonneg e c k s hr
      rcases le_or_lt e.nSamples_ 0 with hle | hlt
      · rw [runSamples_nonpos e c hle] at hr
        simp only [Except.ok.injEq, Prod.mk.injEq] at hr
        rw [← hr.2, zero_div]
      · exact div_nonneg hs (le_of_lt hlt)

theorem calculate_value_nonneg_witness :
    (calculate sampleEngine sampleCollaborators emptyResults).1 = .ok () ∧
    sampleNpv 0 < 0 ∧
    ∃ v : ℚ, (calculate sampleEngine sampleCollaborators emptyResults).2.value = some v ∧
      0 ≤ v :=
  have h : (calculate sampleEngine sampleCollaborators emptyResults).1 = .ok () := by
    rw [sample_calculate]
  ⟨h, by norm_num [sampleNpv],
    calculate_value_nonneg sampleEngine sampleCollaborators emptyResults
      (by norm_num [sampleEngine]) h⟩

/-- C3 fails as stated: with the sample count `0` no trial is run, `calculate` returns and
writes the quotient `0/0`: `results_.value` then holds no real number, so none that is `≥ 0`
(the real value `1` it held before is gone). -/
theorem zero_samples_counterexample :
    calculate zeroEngine sampleCollaborators writtenResults = (.ok (), { value := none }) ∧
    ¬ ∃ v : ℚ, (calculate zeroEngine sampleCollaborators writtenResults).2.value = some v ∧
      0 ≤ v := by
  have hrun := runSamples_nonpos zeroEngine sampleCollaborators (le_of_eq rfl)
  have hcalc : calculate zeroEngine sampleCollaborators writtenResults
      = (.ok (), { value := none }) := by
    rw [calculate_of_ok zeroEngine sampleCollaborators writtenResults
      (fun i => .ok (i : ℚ)) 0 0 rfl hrun]
    have h0 : zeroEngine.nSamples_ = 0 := rfl
    rw [h0, realDiv_zero]
  refine ⟨hcalc, ?_⟩
  rintro ⟨v, hv, _⟩
  rw [hcalc] at hv
  cases hv

/-- C4: for every whole sample count `M ≥ 1` whose trials return the net present values
`npv 0, …, npv (M-1)`, `calculate` runs exactly `M` trials and writes
`(Σ_{i<M} max (npv i) 0) / M`, with no further factor. -/
theorem calculate_mean_of_floored (e : McCirCdsOptionEngine R) (c : Collaborators R)
    (results_ : Results R) (M : Nat) (npv : Nat → R) (hM1 : 1 ≤ M)
    (hM : e.nSamples_ = (M : R))
    (htr : ∀ i : Nat, i < M →
      trial e c (exerciseTime c) (curveDt c) (nCurveSteps c) i = .ok (npv i)) :
    runSamples e c = .ok (M, ∑ i in Finset.range M, max (npv i) 0) ∧
    calculate e c results_
      = (.ok (), { value := some ((∑ i in Finset.range M, max (npv i) 0) / (M : R)) }) := by
  exact calculate_total e c results_ M npv hM1 hM htr

theorem calculate_mean_of_floored_witness :
    runSamples sampleEngine sampleCollaborators
      = .ok (3, ∑ i in Finset.range 3, max (sampleNpv i) 0) ∧
    calculate sampleEngine sampleCollaborators emptyResults
      = (.ok (),
          { value := some ((∑ i in Finset.range 3, max (sampleNpv i) 0) / ((3 : Nat) : ℚ)) }) :=
  calculate_mean_of_floored sampleEngine sampleCollaborators emptyResults 3 sampleNpv
    (by decide) (by norm_num [sampleEngine]) (fun i hi => sample_trials _ i hi)

/-- C5: when on trial `k` (the trials before it having returned) the discount-bond evaluation,
the curve constructor or the valuer raises `err`, `calculate` ends with that error and
`results_` is left as it was: nothing from the completed trials is written. -/
theorem calculate_error_propagates (e : McCirCdsOptionEngine R) (c : Collaborators R)
    (results_ : Results R) (k : Nat) (x : R) (err : String)
    (hk : (k : R) < e.nSamples_)
    (hprev : ∀ i : Nat, i < k →
      ∃ v, trial e c (exerciseTime c) (curveDt c) (nCurveSteps c) i = .ok v)
    (hx : c.cirValue e.seed_ k = .ok x)
    (hraise :
      (∃ j : Nat, 1 ≤ j ∧ (j : R) ≤ nCurveSteps c ∧
        (∀ i : Nat, 1 ≤ i → i < j →
          ∃ v, c.discountBond (exerciseTime c) (exerciseTime c + (i : R) * curveDt c) x = .ok v) ∧
        c.discountBond (exerciseTime c) (exerciseTime c + (j : R) * curveDt c) x = .error err) ∨
      (∃ ds ps, curveInputs c (exerciseTime c) (curveDt c) (nCurveSteps c) x = .ok (ds, ps) ∧
        (c.curveCheck ds ps = .error err ∨
          (c.curveCheck ds ps = .ok () ∧ c.cdsNPV e.recoveryRate_ ds ps = .error err)))) :
    calculate e c results_ = (.error err, results_) := by
  have htrial := trial_raise e c (exerciseTime c) (curveDt c) (nCurveSteps c) k x err hx hraise
  have hrun : runSamples e c = .error err :=
    sampleLoop_raise e c _ _ _ k err hk hprev htrial k 0 0 (by omega)
  obtain ⟨next, hgen⟩ := cirRsg_of_cirValue c e.seed_ k x hx
  exact calculate_of_error e c results_ next err hgen hrun

theorem calculate_error_propagates_witness :
    trial sampleEngine failingCollaborators (exerciseTime failingCollaborators)
      (curveDt failingCollaborators) (nCurveSteps failingCollaborators) 0 = .ok (-1 / 4) ∧
    failingCollaborators.cdsNPV sampleEngine.recoveryRate_ [360, 451, 542] [1, 1, 1]
      = .error "valuer" ∧
    calculate sampleEngine failingCollaborators emptyResults = (.error "valuer", emptyResults) :=
  have h0 : trial sampleEngine failingCollaborators (exerciseTime failingCollaborators)
      (curveDt failingCollaborators) (nCurveSteps failingCollaborators) 0 = .ok (-1 / 4) := by
    rw [failing_exerciseTime, failing_curveDt, failing_nCurveSteps]
    exact failing_trial_zero
  have hc : curveInputs failingCollaborators (exerciseTime failingCollaborators)
      (curveDt failingCollaborators) (nCurveSteps failingCollaborators) ((1 : Nat) : ℚ)
        = .ok ([360, 451, 542], [1, 1, 1]) := by
    rw [failing_exerciseTime, failing_curveDt, failing_nCurveSteps, Nat.cast_one]
    exact failing_curveInputs_one
  ⟨h0, failing_valuer_one,
    calculate_error_propagates sampleEngine failingCollaborators emptyResults 1 ((1 : Nat) : ℚ)
      "valuer" (by norm_num [sampleEngine])
      (fun i hi => ⟨-1 / 4, by
        have hi0 : i = 0 := by omega
        rw [hi0]; exact h0⟩)
      rfl
      (Or.inr ⟨[360, 451, 542], [1, 1, 1], hc, Or.inr ⟨rfl, failing_valuer_one⟩⟩)⟩

end AggregationClaims

/-! ## The number of curve points and the sample count -/

section CountClaims

variable {R : Type} [LinearOrderedField R] [FloorRing R]

/-- C8, as the code has it: the curve loop appends `⌊4 (T - t)⌋` points after the anchor, one
date and one probability each, and it appends at least one exactly when `T - t ≥ 1/4`. -/
theorem curve_points_floor (c : Collaborators R) (x : R) (ds : List Int) (ps : List R)
    (h : curveInputs c (exerciseTime c) (curveDt c) (nCurveSteps c) x = .ok (ds, ps)) :
    ps.length = 1 + ⌊4 * (maturityTime c - exerciseTime c)⌋₊ ∧
    ds.length = 1 + ⌊4 * (maturityTime c - exerciseTime c)⌋₊ ∧
    (1 ≤ ⌊4 * (maturityTime c - exerciseTime c)⌋₊ ↔
      1 / 4 ≤ maturityTime c - exerciseTime c) := by
  obtain ⟨hd, raw, hp, hr⟩ := curveInputs_ok_shape c _ _ _ x ds ps h
  have hn : nCurveSteps c = 4 * (maturityTime c - exerciseTime c) := by
    rw [nCurveSteps, mul_comm]
  rw [hn] at hd hr
  have hlen : raw.length = ⌊4 * (maturityTime c - exerciseTime c)⌋₊ := by
    rw [← hr.length_eq, List.length_range']
  refine ⟨?_, ?_, ?_⟩
  · rw [hp, List.length_cons, clampFrom_length, hlen, add_comm]
  · rw [hd, List.length_cons, List.length_map, List.length_range', add_comm]
  · rw [Nat.one_le_floor_iff]
    constructor
    · intro h1; linarith
    · intro h1; linarith

theorem curve_points_floor_witness :
    curveInputs sampleCollaborators (exerciseTime sampleCollaborators)
      (curveDt sampleCollaborators) (nCurveSteps sampleCollaborators) 0
        = .ok ([360, 451, 542], [1, 3 / 4, 1 / 2]) ∧
    ([1, 3 / 4, 1 / 2] : List ℚ).length
      = 1 + ⌊4 * (maturityTime sampleCollaborators - exerciseTime sampleCollaborators)⌋₊ ∧
    ([360, 451, 542] : List Int).length
      = 1 + ⌊4 * (maturityTime sampleCollaborators - exerciseTime sampleCollaborators)⌋₊ ∧
    (1 ≤ ⌊4 * (maturityTime sampleCollaborators - exerciseTime sampleCollaborators)⌋₊ ↔
      1 / 4 ≤ maturityTime sampleCollaborators - exerciseTime sampleCollaborators) :=
  have h0 : curveInputs sampleCollaborators (exerciseTime sampleCollaborators)
      (curveDt sampleCollaborators) (nCurveSteps sampleCollaborators) 0
        = .ok ([360, 451, 542], [1, 3 / 4, 1 / 2]) := by
    rw [sample_exerciseTime, sample_curveDt, sample_nCurveSteps,
      sample_curveInputs sampleCollaborators rfl rfl]
    norm_num [clampFrom]
  ⟨h0, curve_points_floor sampleCollaborators 0 [360, 451, 542] [1, 3 / 4, 1 / 2] h0⟩

/-- C8 fails as stated: with the maturity `0.3` years after the exercise the loop appends one
point, while `⌈4 · 0.3⌉ = 2`. -/
theorem curve_points_ceil_counterexample :
    exerciseTime shortCollaborators < maturityTime shortCollaborators ∧
    curveInputs shortCollaborators (exerciseTime shortCollaborators)
      (curveDt shortCollaborators) (nCurveSteps shortCollaborators) 0
        = .ok ([360, 451], [1, 3 / 4]) ∧
    ⌈4 * (maturityTime shortCollaborators - exerciseTime shortCollaborators)⌉₊ = 2 := by
  refine ⟨?_, ?_, ?_⟩
  · rw [short_exerciseTime, short_maturityTime]; norm_num
  · rw [short_exerciseTime, short_curveDt, short_nCurveSteps]
    exact short_curveInputs
  · rw [short_exerciseTime, short_maturityTime, Nat.ceil_eq_iff (by norm_num)]
    norm_num

/-- C9, as the code has it: the sample count is not validated.  For every `nSamples ≤ 0` the
constructor returns the engine and, the path generator of `calculate` being built,
`calculate` runs no trial, raises no error and writes the empty sum divided by `nSamples`:
`0` for `nSamples < 0`, no real number (`0/0`) for `nSamples = 0`. -/
theorem nonpositive_samples_accepted (nSamples seed recoveryRate : R) (c : Collaborators R)
    (results_ : Results R) (next : Nat → Except String R) (h : nSamples ≤ 0)
    (hgen : c.cirRsg (exerciseTime c) seed = .ok next) :
    McCirCdsOptionEngine.construct nSamples seed recoveryRate
      = .ok { nSamples_ := nSamples, seed_ := seed, recoveryRate_ := recoveryRate } ∧
    runSamples { nSamples_ := nSamples, seed_ := seed, recoveryRate_ := recoveryRate } c
      = .ok (0, 0) ∧
    calculate { nSamples_ := nSamples, seed_ := seed, recoveryRate_ := recoveryRate } c results_
      = (.ok (), { value := realDiv 0 nSamples }) ∧
    (nSamples < 0 → realDiv (0 : R) nSamples = some 0) ∧
    (nSamples = 0 → realDiv (0 : R) nSamples = none) := by
  have hrun := runSamples_nonpos
    { nSamples_ := nSamples, seed_ := seed, recoveryRate_ := recoveryRate } c h
  refine ⟨rfl, hrun, calculate_of_ok _ c results_ next 0 0 hgen hrun, ?_, ?_⟩
  · intro hneg
    rw [realDiv_of_ne _ _ (ne_of_lt hneg), zero_div]
  · intro h0
    rw [h0, realDiv_zero]

theorem nonpositive_samples_accepted_witness :
    McCirCdsOptionEngine.construct (-2 : ℚ) 42 (2 / 5)
      = .ok { nSamples_ := -2, seed_ := 42, recoveryRate_ := 2 / 5 } ∧
    runSamples { nSamples_ := (-2 : ℚ), seed_ := 42, recoveryRate_ := 2 / 5 } sampleCollaborators
      = .ok (0, 0) ∧
    calculate { nSamples_ := (-2 : ℚ), seed_ := 42, recoveryRate_ := 2 / 5 } sampleCollaborators
        emptyResults
      = (.ok (), { value := some 0 }) :=
  have h := nonpositive_samples_accepted (-2 : ℚ) 42 (2 / 5) sampleCollaborators emptyResults
    (fun i => .ok (i : ℚ)) (by norm_num) rfl
  ⟨h.1, h.2.1, by rw [h.2.2.1, h.2.2.2.1 (by norm_num)]⟩

/-- C9 fails as stated: with `nSamples = -1` the constructor returns the engine and
`calculate` writes `0` without any error. -/
theorem nonpositive_samples_counterexample :
    McCirCdsOptionEngine.construct (-1 : ℚ) 42 (2 / 5) = .ok negativeEngine ∧
    calculate negativeEngine sampleCollaborators emptyResults = (.ok (), { value := some 0 }) := by
  refine ⟨rfl, ?_⟩
  have hrun := runSamples_nonpos negativeEngine sampleCollaborators
    (by norm_num [negativeEngine])
  have hne : negativeEngine.nSamples_ ≠ 0 := by norm_num [negativeEngine]
  rw [calculate_of_ok negativeEngine sampleCollaborators emptyResults
    (fun i => .ok (i : ℚ)) 0 0 rfl hrun, realDiv_of_ne _ _ hne, zero_div]

end CountClaims

/-! ## The transition sampler `evolve` -/

section EvolveClaims

variable {R : Type} [LinearOrderedField R]

/-- Every sample returned by the quadratic-exponential branch is non-negative, given that the
logarithm is non-negative from 1 on and the normal distribution function stays below 1.  The
intermediate quantity `A = k2 + 0.5*k4` vanishes (`rho_ = 0`, `g2 = 0.5`), so the two
`QL_REQUIRE` tests read `0 < 1/(2a)` and `0 < beta`. -/
theorem evolveQuadraticExponential_nonneg (fn : Functions R) (p : CoxIngersollRossProcess R)
    (x0 dt dw : R) (k0 v : R)
    (hd : p.discretization_ = Discretization.QuadraticExponentialMartingale)
    (hlog : ∀ y : R, 1 ≤ y → 0 ≤ fn.log y) (hcdf : fn.cumulativeNormal dw < 1)
    (h : evolveQuadraticExponential fn p x0 dt dw = .ok (k0, v)) : 0 ≤ v := by
  unfold evolveQuadraticExponential at h
  lift_lets at h
  extract_lets rho ex m s2 psi g k0i k1 k2 k3 A b2 b a pp beta u at h
  have hA : A = 0 := by
    simp only [A, k2, k3, g, rho, mul_zero, zero_div]
    ring
  by_cases hpsi : psi < 3 / 2
  · -- low-variance regime: the requirement reads `0 < 1/(2a)`
    rw [if_pos hpsi] at h
    rw [if_pos hd, hA] at h
    by_cases ha : (0 : R) < 1 / (2 * a)
    · rw [if_pos ha] at h
      by_cases hb2 : 0 ≤ b2
      · rw [if_pos hb2] at h
        simp only [Outcome.ok.injEq, Prod.mk.injEq] at h
        rw [← h.2]
        have ha0 : 0 < a := by
          have := one_div_pos.mp ha
          linarith
        rw [mul_assoc]
        exact mul_nonneg (le_of_lt ha0) (mul_self_nonneg _)
      · rw [if_neg hb2] at h
        cases h
    · rw [if_neg ha] at h
      cases h
  · -- high-variance regime: the requirement reads `0 < beta`
    rw [if_neg hpsi] at h
    rw [if_pos hd, hA] at h
    by_cases hb : (0 : R) < beta
    · rw [if_pos hb] at h
      simp only [Outcome.ok.injEq, Prod.mk.injEq] at h
      rw [← h.2]
      have hpsi1 : 0 < psi + 1 := by
        have := not_lt.mp hpsi
        linarith
      have hpp : pp < 1 := by
        rw [show pp = (psi - 1) / (psi + 1) from rfl, div_lt_one hpsi1]
        linarith
      split_ifs with hu
      · exact le_refl 0
      · have hu' := not_le.mp hu
        have h1u : 0 < 1 - u := by
          have : u < 1 := hcdf
          linarith
        refine div_nonneg (hlog _ ?_) (le_of_lt hb)
        rw [le_div_iff₀ h1u]
        linarith
    · rw [if_neg hb] at h
      cases h

/-- The value `evolve` returns under `FullTruncation`. -/
theorem evolve_fullTruncation_value (fn : Functions R) (p : CoxIngersollRossProcess R)
    (t0 x0 dt dw : R) (hd : p.discretization_ = Discretization.FullTruncation) :
    ∃ v : R, evolve fn p t0 x0 dt dw = .ok v ∧ 0 ≤ v ∧
      v = max 0 (expectation fn p t0 (max x0 0) dt + stdDeviation fn p t0 (max x0 0) dt * dw) := by
  have hx : (if x0 > 0 then x0 else 0) = max x0 0 := by
    split_ifs with hpos
    · rw [max_eq_left (le_of_lt hpos)]
    · rw [max_eq_right (not_lt.mp hpos)]
  have hres : ∀ r : R, (if r > 0 then r else 0) = max 0 r := by
    intro r
    split_ifs with hpos
    · rw [max_eq_right (le_of_lt hpos)]
    · rw [max_eq_left (not_lt.mp hpos)]
  refine ⟨_, ?_, le_max_left 0 _, rfl⟩
  unfold evolve
  simp only [hd, hx, hres, apply]

/-- C6: under `FullTruncation`, for every `t0`, `x0` (negative included), `dt` and shock,
`evolve` returns a value, the value is `≥ 0`, and it equals
`max(0, expectation(t0, max(x0,0), dt) + stdDeviation(t0, max(x0,0), dt) * shock)`. -/
theorem evolve_fullTruncation (fn : Functions R) (p : CoxIngersollRossProcess R)
    (t0 x0 dt dw : R) (hd : p.discretization_ = Discretization.FullTruncation) :
    ∃ v : R, evolve fn p t0 x0 dt dw = .ok v ∧ 0 ≤ v ∧
      v = max 0 (expectation fn p t0 (max x0 0) dt + stdDeviation fn p t0 (max x0 0) dt * dw) :=
  evolve_fullTruncation_value fn p t0 x0 dt dw hd

theorem evolve_fullTruncation_witness :
    evolve sampleFunctions truncationProcess 0 (-1) 0 (-3) = .ok 0 ∧
    ∃ v : ℚ, evolve sampleFunctions truncationProcess 0 (-1) 0 (-3) = .ok v ∧ 0 ≤ v ∧
      v = max 0 (expectation sampleFunctions truncationProcess 0 (max (-1) 0) 0
            + stdDeviation sampleFunctions truncationProcess 0 (max (-1) 0) 0 * (-3)) :=
  ⟨by norm_num [evolve, apply, expectation, stdDeviation, sampleFunctions, truncationProcess],
    evolve_fullTruncation sampleFunctions truncationProcess 0 (-1) 0 (-3) rfl⟩

/-- C7, as the code has it: under the quadratic-exponential scheme, for every `x0` (negative
included), `dt` and shock, a real value returned by `evolve` is `≥ 0`; the logarithm is taken
non-negative from 1 on and the normal distribution function below 1 at the shock.  (A value
that is not a real number is the outcome `nan`, not `ok`.) -/
theorem evolve_quadraticExponential_nonneg (fn : Functions R) (p : CoxIngersollRossProcess R)
    (t0 x0 dt dw v : R)
    (hd : p.discretization_ = Discretization.QuadraticExponentialMartingale)
    (hlog : ∀ y : R, 1 ≤ y → 0 ≤ fn.log y) (hcdf : fn.cumulativeNormal dw < 1)
    (h : evolve fn p t0 x0 dt dw = .ok v) : 0 ≤ v := by
  unfold evolve at h
  simp only [hd] at h
  cases hq : evolveQuadraticExponential fn p x0 dt dw with
  | error err => rw [hq] at h; cases h
  | nan => rw [hq] at h; cases h
  | ok pr =>
    obtain ⟨k0, r⟩ := pr
    rw [hq] at h
    simp only [Outcome.ok.injEq] at h
    rw [← h]
    exact evolveQuadraticExponential_nonneg fn p x0 dt dw k0 r hd hlog hcdf hq

theorem evolve_quadraticExponential_nonneg_witness :
    evolve sampleFunctions quadraticProcess 0 (-1 / 4) (1 / 2) 0 = .ok (5929 / 864) ∧
    (0 : ℚ) ≤ 5929 / 864 :=
  have h : evolve sampleFunctions quadraticProcess 0 (-1 / 4) (1 / 2) 0 = .ok (5929 / 864) := by
    norm_num [evolve, evolveQuadraticExponential, sampleFunctions, quadraticProcess]
  ⟨h, evolve_quadraticExponential_nonneg sampleFunctions quadraticProcess 0 (-1 / 4) (1 / 2) 0
    (5929 / 864) rfl (fun y hy => by simpa [sampleFunctions] using hy)
    (by norm_num [sampleFunctions]) h⟩

/-- C10, as the code has it: `evolve` has no test on `dt`.  Under the `None` and
`FullTruncation` schemes it returns a value and raises no error for every `dt`, the
non-positive ones included. -/
theorem evolve_accepts_any_dt (fn : Functions R) (p : CoxIngersollRossProcess R)
    (t0 x0 dt dw : R)
    (hd : p.discretization_ = Discretization.None ∨
      p.discretization_ = Discretization.FullTruncation) :
    ∃ v : R, evolve fn p t0 x0 dt dw = .ok v := by
  rcases hd with hd | hd
  · refine ⟨apply (expectation fn p t0 x0 dt) (stdDeviation fn p t0 x0 dt * dw), ?_⟩
    unfold evolve
    simp only [hd]
  · obtain ⟨v, hv, _⟩ := evolve_fullTruncation_value fn p t0 x0 dt dw hd
    exact ⟨v, hv⟩

theorem evolve_accepts_any_dt_witness :
    ∃ v : ℚ, evolve sampleFunctions truncationProcess 0 2 (-1) 1 = .ok v :=
  evolve_accepts_any_dt sampleFunctions truncationProcess 0 2 (-1) 1 (Or.inr rfl)

/-- C10 fails as stated: under the `None` scheme, `evolve` with the time step `dt = 0` returns
the value `2` from `x0 = 2`; no error is raised. -/
theorem evolve_rejects_dt_counterexample :
    (0 : ℚ) ≤ 0 ∧ evolve sampleFunctions plainProcess 0 2 0 1 = .ok 2 := by
  refine ⟨le_refl 0, ?_⟩
  norm_num [evolve, apply, expectation, stdDeviation, sampleFunctions, plainProcess]

end EvolveClaims

/-! ## The regimes of the quadratic-exponential branch -/

section RegimeLemmas

variable {R : Type} [LinearOrderedField R]

theorem qeA_eq_zero (p : CoxIngersollRossProcess R) (dt : R) : qeA p dt = 0 := by
  simp only [qeA, mul_zero, zero_div]
  ring

/-- The quadratic-exponential branch of `evolve` in terms of its named locals. -/
theorem evolve_quadraticExponential_eq (fn : Functions R) (p : CoxIngersollRossProcess R)
    (t0 x0 dt dw : R)
    (hd : p.discretization_ = Discretization.QuadraticExponentialMartingale) :
    evolve fn p t0 x0 dt dw =
      if qePsi fn p x0 dt < 3 / 2 then
        if qeA p dt < 1 / (2 * qeLowA fn p x0 dt) then
          if 0 ≤ qeB2 fn p x0 dt then
            .ok (qeLowA fn p x0 dt * (qeB fn p x0 dt + dw) * (qeB fn p x0 dt + dw))
          else .nan
        else .error "illegal value"
      else
        if qeA p dt < qeBeta fn p x0 dt then
          .ok (if fn.cumulativeNormal dw ≤ qeP fn p x0 dt then 0
               else fn.log ((1 - qeP fn p x0 dt) / (1 - fn.cumulativeNormal dw))
                      / qeBeta fn p x0 dt)
        else .error "illegal value" := by
  unfold evolve evolveQuadraticExponential
  simp only [hd, if_true, qeA, qeLowA, qeB, qeB2, qeBeta, qeP, qePsi, qeS2, qeM]
  split_ifs <;> rfl

/-- In the high-variance regime with `m > 0`: `p < 1` and `beta > 0`. -/
theorem qe_high_beta_pos (fn : Functions R) (p : CoxIngersollRossProcess R) (x0 dt : R)
    (hm : 0 < qeM fn p x0 dt) (hpsi : 3 / 2 ≤ qePsi fn p x0 dt) :
    qeP fn p x0 dt < 1 ∧ 0 < qeBeta fn p x0 dt := by
  have h1 : 0 < qePsi fn p x0 dt + 1 := by linarith
  have hp : qeP fn p x0 dt < 1 := by
    rw [qeP, div_lt_one h1]
    linarith
  refine ⟨hp, ?_⟩
  rw [qeBeta]
  exact div_pos (by linarith) hm

end RegimeLemmas

/-! ## The schemes of `evolve`, one by one -/

section SchemeClaims

variable {R : Type} [LinearOrderedField R]

/-- C11: under the scheme `None`, for every input,
`evolve = expectation(t0,x0,dt) + stdDeviation(t0,x0,dt) * shock` with no truncation, where
`expectation = level + (x0 - level) * exp(-speed*dt)` and `stdDeviation` is the square root
of `variance(t0,x0,dt)`. -/
theorem evolve_plain (fn : Functions R) (p : CoxIngersollRossProcess R) (t0 x0 dt dw : R)
    (hd : p.discretization_ = Discretization.None) :
    evolve fn p t0 x0 dt dw
      = .ok (expectation fn p t0 x0 dt + stdDeviation fn p t0 x0 dt * dw) ∧
    expectation fn p t0 x0 dt = p.level_ + (x0 - p.level_) * fn.exp (-p.speed_ * dt) ∧
    stdDeviation fn p t0 x0 dt = fn.sqrt (fn.variance t0 x0 dt) := by
  refine ⟨?_, rfl, rfl⟩
  unfold evolve
  simp only [hd, apply]

theorem evolve_plain_witness :
    evolve sampleFunctions plainProcess 0 1 1 (-3) = .ok (-2) ∧
    (evolve sampleFunctions plainProcess 0 1 1 (-3)
      = .ok (expectation sampleFunctions plainProcess 0 1 1
              + stdDeviation sampleFunctions plainProcess 0 1 1 * (-3)) ∧
    expectation sampleFunctions plainProcess 0 1 1
      = plainProcess.level_ + (1 - plainProcess.level_)
          * sampleFunctions.exp (-plainProcess.speed_ * 1) ∧
    stdDeviation sampleFunctions plainProcess 0 1 1
      = sampleFunctions.sqrt (sampleFunctions.variance 0 1 1)) :=
  ⟨by norm_num [evolve, apply, expectation, stdDeviation, sampleFunctions, plainProcess],
    evolve_plain sampleFunctions plainProcess 0 1 1 (-3) rfl⟩

/-- C13: under `QuadraticExponentialMartingale`, `evolve` raises "illegal value" whenever the
martingale-correction denominator is not positive: `1 - 2*A*a ≤ 0` in the low-variance regime
(`psi < 1.5`), `beta - A ≤ 0` in the high-variance regime (`psi ≥ 1.5`). -/
theorem evolve_martingale_illegal (fn : Functions R) (p : CoxIngersollRossProcess R)
    (t0 x0 dt dw : R)
    (hd : p.discretization_ = Discretization.QuadraticExponentialMartingale)
    (h : (qePsi fn p x0 dt < 3 / 2 ∧ 1 - 2 * qeA p dt * qeLowA fn p x0 dt ≤ 0) ∨
         (3 / 2 ≤ qePsi fn p x0 dt ∧ qeBeta fn p x0 dt - qeA p dt ≤ 0)) :
    evolve fn p t0 x0 dt dw = .error "illegal value" := by
  rw [evolve_quadraticExponential_eq fn p t0 x0 dt dw hd]
  rcases h with ⟨_, hden⟩ | ⟨hpsi, hden⟩
  · rw [qeA_eq_zero] at hden
    norm_num at hden
  · rw [if_neg (not_lt.mpr hpsi), if_neg (by linarith)]

theorem evolve_martingale_illegal_witness :
    qePsi sampleFunctions invertedProcess (3 / 4) (1 / 2) = 4 ∧
    qeBeta sampleFunctions invertedProcess (3 / 4) (1 / 2) = -16 / 5 ∧
    evolve sampleFunctions invertedProcess 0 (3 / 4) (1 / 2) 0 = .error "illegal value" :=
  have hpsi : qePsi sampleFunctions invertedProcess (3 / 4) (1 / 2) = 4 := by
    norm_num [qePsi, qeS2, qeM, sampleFunctions, invertedProcess]
  have hbeta : qeBeta sampleFunctions invertedProcess (3 / 4) (1 / 2) = -16 / 5 := by
    rw [qeBeta, qeP, hpsi]
    norm_num [qeM, sampleFunctions, invertedProcess]
  ⟨hpsi, hbeta,
    evolve_martingale_illegal sampleFunctions invertedProcess 0 (3 / 4) (1 / 2) 0 rfl
      (Or.inr ⟨by rw [hpsi]; norm_num, by rw [hbeta, qeA_eq_zero]; norm_num⟩)⟩

/-- C17: in the high-variance regime (`psi ≥ 1.5`, the boundary included) with `m > 0`,
`evolve` returns `0` when `u ≤ p` and `log((1-p)/(1-u))/beta` otherwise, where
`p = (psi-1)/(psi+1)`, `beta = (1-p)/m` and `u` is the normal distribution function at the
shock; the latter value is strictly positive.  The logarithm is taken positive above 1 and
the distribution function below 1 at the shock. -/
theorem evolve_high_variance (fn : Functions R) (p : CoxIngersollRossProcess R)
    (t0 x0 dt dw : R)
    (hd : p.discretization_ = Discretization.QuadraticExponentialMartingale)
    (hpsi : 3 / 2 ≤ qePsi fn p x0 dt) (hm : 0 < qeM fn p x0 dt)
    (hlog : ∀ y : R, 1 < y → 0 < fn.log y) (hcdf : fn.cumulativeNormal dw < 1) :
    evolve fn p t0 x0 dt dw
      = .ok (if fn.cumulativeNormal dw ≤ qeP fn p x0 dt then 0
             else fn.log ((1 - qeP fn p x0 dt) / (1 - fn.cumulativeNormal dw))
                    / qeBeta fn p x0 dt) ∧
    (¬ fn.cumulativeNormal dw ≤ qeP fn p x0 dt →
      0 < fn.log ((1 - qeP fn p x0 dt) / (1 - fn.cumulativeNormal dw)) / qeBeta fn p x0 dt) := by
  obtain ⟨_, hbeta⟩ := qe_high_beta_pos fn p x0 dt hm hpsi
  constructor
  · rw [evolve_quadraticExponential_eq fn p t0 x0 dt dw hd, if_neg (not_lt.mpr hpsi),
      qeA_eq_zero, if_pos hbeta]
  · intro hu
    have hu' := not_le.mp hu
    have h1u : 0 < 1 - fn.cumulativeNormal dw := by linarith
    refine div_pos (hlog _ ?_) hbeta
    rw [lt_div_iff₀ h1u]
    linarith

theorem evolve_high_variance_witness :
    qePsi sampleFunctions volatileProcess 1 (1 / 2) = 3 / 2 ∧
    evolve sampleFunctions volatileProcess 0 1 (1 / 2) 0 = .ok (3 / 4) ∧
    (¬ sampleFunctions.cumulativeNormal 0 ≤ qeP sampleFunctions volatileProcess 1 (1 / 2) →
      0 < sampleFunctions.log ((1 - qeP sampleFunctions volatileProcess 1 (1 / 2))
            / (1 - sampleFunctions.cumulativeNormal 0))
          / qeBeta sampleFunctions volatileProcess 1 (1 / 2)) :=
  have hpsi : qePsi sampleFunctions volatileProcess 1 (1 / 2) = 3 / 2 := by
    norm_num [qePsi, qeS2, qeM, sampleFunctions, volatileProcess]
  have hm : qeM sampleFunctions volatileProcess 1 (1 / 2) = 1 := by
    norm_num [qeM, sampleFunctions, volatileProcess]
  have hp : qeP sampleFunctions volatileProcess 1 (1 / 2) = 1 / 5 := by
    rw [qeP, hpsi]; norm_num
  have hb : qeBeta sampleFunctions volatileProcess 1 (1 / 2) = 4 / 5 := by
    rw [qeBeta, hp, hm]; norm_num
  have h := evolve_high_variance sampleFunctions volatileProcess 0 1 (1 / 2) 0 rfl
    (le_of_eq hpsi.symm) (by rw [hm]; norm_num)
    (fun y hy => by simpa [sampleFunctions] using hy) (by norm_num [sampleFunctions])
  ⟨hpsi, by rw [h.1, hp, hb]; norm_num [sampleFunctions], h.2⟩

end SchemeClaims

/-! ## The exact scheme, the helper process and the documented coefficients -/

section ExactClaims

variable {R : Type} [LinearOrderedField R]

/-- C19: under the scheme `Exact`, for `speed > 0`, `volatility > 0` and `dt > 0`, with
`u` the normal distribution function at the shock, `c = 4*speed/(volatility^2*(1-exp(-speed*dt)))`
is positive and, when the inversion of the noncentral chi-square distribution with
`nu = 4*speed*level/volatility^2` degrees of freedom, noncentrality `eta = c*x0*exp(-speed*dt)`
and a budget of 100 returns `q` at `u`, `evolve` returns `q/c`; this is `≥ 0` whenever
`q ≥ 0`.  The exponential is taken below 1 on the negative numbers. -/
theorem evolve_exact (fn : Functions R) (p : CoxIngersollRossProcess R) (t0 x0 dt dw q : R)
    (hd : p.discretization_ = Discretization.Exact)
    (hs : 0 < p.speed_) (hv : 0 < p.volatility_) (hdt : 0 < dt)
    (hexp : ∀ y : R, y < 0 → fn.exp y < 1)
    (hq : fn.inverseNonCentralChiSquare (exactNu p) (exactEta fn p x0 dt) 100
            (fn.cumulativeNormal dw) = .ok q) :
    evolve fn p t0 x0 dt dw = .ok (q / exactC fn p dt) ∧
    exactC fn p dt
      = 4 * p.speed_ / (p.volatility_ ^ 2 * (1 - fn.exp (-p.speed_ * dt))) ∧
    0 < exactC fn p dt ∧
    exactNu p = 4 * p.speed_ * p.level_ / p.volatility_ ^ 2 ∧
    exactEta fn p x0 dt = exactC fn p dt * x0 * fn.exp (-p.speed_ * dt) ∧
    (0 ≤ q → 0 ≤ q / exactC fn p dt) := by
  have hneg : -p.speed_ * dt < 0 := by
    have := mul_pos hs hdt
    linarith
  have hex : 0 < 1 - fn.exp (-p.speed_ * dt) := by
    have := hexp _ hneg
    linarith
  have hc : 0 < exactC fn p dt := by
    rw [exactC]
    exact div_pos (by linarith) (mul_pos (mul_pos hv hv) hex)
  refine ⟨?_, ?_, hc, ?_, rfl, fun h0 => div_nonneg h0 (le_of_lt hc)⟩
  · have hq' := hq
    simp only [exactNu, exactEta, exactC] at hq'
    unfold evolve
    simp only [hd, hq', exactC]
  · rw [exactC, pow_two]
  · rw [exactNu, pow_two]

theorem evolve_exact_witness :
    evolve exactFunctions exactProcess 0 1 (1 / 2) 0 = .ok 1 ∧
    exactC exactFunctions exactProcess (1 / 2) = 8 ∧
    (evolve exactFunctions exactProcess 0 1 (1 / 2) 0
        = .ok (8 / exactC exactFunctions exactProcess (1 / 2)) ∧
      exactC exactFunctions exactProcess (1 / 2)
        = 4 * exactProcess.speed_ / (exactProcess.volatility_ ^ 2
            * (1 - exactFunctions.exp (-exactProcess.speed_ * (1 / 2)))) ∧
      0 < exactC exactFunctions exactProcess (1 / 2) ∧
      exactNu exactProcess
        = 4 * exactProcess.speed_ * exactProcess.level_ / exactProcess.volatility_ ^ 2 ∧
      exactEta exactFunctions exactProcess 1 (1 / 2)
        = exactC exactFunctions exactProcess (1 / 2) * 1
            * exactFunctions.exp (-exactProcess.speed_ * (1 / 2)) ∧
      ((0 : ℚ) ≤ 8 → 0 ≤ 8 / exactC exactFunctions exactProcess (1 / 2))) :=
  have hc : exactC exactFunctions exactProcess (1 / 2) = 8 := by
    norm_num [exactC, exactFunctions, sampleFunctions, exactProcess]
  have h := evolve_exact exactFunctions exactProcess 0 1 (1 / 2) 0 8 rfl
    (by norm_num [exactProcess]) (by norm_num [exactProcess]) (by norm_num)
    (fun y hy => by simpa [exactFunctions, sampleFunctions] using hy)
    (by norm_num [exactNu, exactEta, exactC, exactFunctions, sampleFunctions, exactProcess])
  ⟨by rw [h.1, hc]; norm_num, hc, h⟩

/-- C20: `CirHelperProcess::drift` returns `0` for every `|y| < 0.001`, reaches its only
division with a divisor `y ≠ 0`, and for every `y`
`|drift(t,y)| ≤ 1000*|0.5*theta*k - 0.125*sigma^2| + 0.5*|k|*|y|`. -/
theorem cirHelper_drift_bounded (h : CirHelperProcess R) (t y : R) :
    (|y| < 1 / 1000 → h.drift t y = 0) ∧
    (¬ |y| < 1 / 1000 → y ≠ 0) ∧
    |h.drift t y| ≤ 1000 * |1 / 2 * h.theta_ * h.k_ - 1 / 8 * h.sigma_ ^ 2|
      + 1 / 2 * |h.k_| * |y| := by
  have hrhs : 0 ≤ 1000 * |1 / 2 * h.theta_ * h.k_ - 1 / 8 * h.sigma_ ^ 2|
      + 1 / 2 * |h.k_| * |y| := by positivity
  refine ⟨fun hy => by rw [CirHelperProcess.drift, if_pos hy], ?_, ?_⟩
  · intro hy h0
    apply hy
    rw [h0, abs_zero]
    norm_num
  · by_cases hy : |y| < 1 / 1000
    · rw [CirHelperProcess.drift, if_pos hy, abs_zero]
      exact hrhs
    · rw [CirHelperProcess.drift, if_neg hy, pow_two, ← mul_assoc]
      have hy' : (1 / 1000 : R) ≤ |y| := not_lt.mp hy
      have hypos : 0 < |y| := lt_of_lt_of_le (by norm_num) hy'
      set c := 1 / 2 * h.theta_ * h.k_ - 1 / 8 * h.sigma_ * h.sigma_ with hc
      have h1 : |c / y| ≤ 1000 * |c| := by
        rw [abs_div, div_le_iff₀ hypos]
        have : 0 ≤ |c| := abs_nonneg c
        nlinarith
      have h2 : |1 / 2 * h.k_ * y| = 1 / 2 * |h.k_| * |y| := by
        rw [abs_mul, abs_mul]
        norm_num
      calc |c / y - 1 / 2 * h.k_ * y| ≤ |c / y| + |1 / 2 * h.k_ * y| := abs_sub _ _
        _ ≤ 1000 * |c| + 1 / 2 * |h.k_| * |y| := by rw [h2]; linarith

/-- C15, the code at a concrete state: `drift` is `speed * (level - x)` as documented, while
`diffusion` returns the volatility alone: at `x = 4` with volatility 1 it returns `1`, not
`volatility * sqrt(4) = 2`. -/
theorem diffusion_ignores_state :
    (∀ (p : CoxIngersollRossProcess ℚ) (t x : ℚ),
      drift p t x = p.speed_ * (p.level_ - x) ∧ diffusion p t x = p.volatility_) ∧
    diffusion plainProcess 0 4 = 1 ∧
    ∀ s : ℚ, 0 ≤ s → s * s = 4 → diffusion plainProcess 0 4 ≠ plainProcess.volatility_ * s := by
  refine ⟨fun p t x => ⟨rfl, rfl⟩, rfl, ?_⟩
  intro s hs hss hcontra
  have h1 : diffusion plainProcess 0 4 = 1 := rfl
  have h2 : plainProcess.volatility_ = 1 := rfl
  rw [h1, h2, one_mul] at hcontra
  rw [← hcontra] at hss
  norm_num at hss

end ExactClaims

/-! ## Curve dates against curve times -/

section DateClaims

/-- C18, the code at concrete dates: with the exercise 360 days after the evaluation date,
the first discount bond is evaluated at the time `t + dt = 5/4`, while the first curve date
is day 451, whose Actual/360 year fraction from the evaluation date is `451/360`. -/
theorem curve_time_date_mismatch :
    exerciseTime sampleCollaborators + ((1 : Nat) : ℚ) * curveDt sampleCollaborators = 5 / 4 ∧
    curveDate sampleCollaborators (curveDt sampleCollaborators) 1 = 451 ∧
    sampleCollaborators.yearFraction sampleCollaborators.todaysDate 451 = 451 / 360 ∧
    sampleCollaborators.yearFraction sampleCollaborators.todaysDate
        (curveDate sampleCollaborators (curveDt sampleCollaborators) 1)
      ≠ exerciseTime sampleCollaborators + ((1 : Nat) : ℚ) * curveDt sampleCollaborators := by
  have hd : curveDate sampleCollaborators (curveDt sampleCollaborators) 1 = 451 := by
    rw [sample_curveDt]
    exact sample_curveDate sampleCollaborators rfl 1 91 (by norm_num) (by norm_num)
  have hy : sampleCollaborators.yearFraction sampleCollaborators.todaysDate 451 = 451 / 360 := by
    norm_num [sampleCollaborators, actual360]
  refine ⟨?_, hd, hy, ?_⟩
  · rw [sample_exerciseTime, sample_curveDt]; norm_num
  · rw [hd, hy, sample_exerciseTime, sample_curveDt]; norm_num

end DateClaims

/-! ## The low-variance regime and the degenerate start -/

section LowVarianceClaims

variable {R : Type} [LinearOrderedField R]

/-- In the low-variance regime with `psi > 0`: `2/psi - 1 > 0`, the argument of the inner
square root is non-negative and, the square root being non-negative, `b2 > 0`. -/
theorem qe_low_b2_pos (fn : Functions R) (p : CoxIngersollRossProcess R) (x0 dt : R)
    (hpsi0 : 0 < qePsi fn p x0 dt) (hpsi : qePsi fn p x0 dt < 3 / 2)
    (hsqrt : ∀ y : R, 0 ≤ y → 0 ≤ fn.sqrt y) :
    0 ≤ 2 / qePsi fn p x0 dt * (2 / qePsi fn p x0 dt - 1) ∧ 0 < qeB2 fn p x0 dt := by
  have hx : 1 < 2 / qePsi fn p x0 dt := by
    rw [lt_div_iff₀ hpsi0]
    linarith
  have harg : 0 ≤ 2 / qePsi fn p x0 dt * (2 / qePsi fn p x0 dt - 1) :=
    mul_nonneg (by linarith) (by linarith)
  refine ⟨harg, ?_⟩
  rw [qeB2]
  have := hsqrt _ harg
  linarith

/-- In the low-variance regime with `m > 0` and `psi > 0` the requirement `A < 1/(2a)` holds. -/
theorem qe_low_requirement (fn : Functions R) (p : CoxIngersollRossProcess R) (x0 dt : R)
    (hm : 0 < qeM fn p x0 dt) (hpsi0 : 0 < qePsi fn p x0 dt) (hpsi : qePsi fn p x0 dt < 3 / 2)
    (hsqrt : ∀ y : R, 0 ≤ y → 0 ≤ fn.sqrt y) :
    0 < qeLowA fn p x0 dt ∧ qeA p dt < 1 / (2 * qeLowA fn p x0 dt) := by
  obtain ⟨_, hb2⟩ := qe_low_b2_pos fn p x0 dt hpsi0 hpsi hsqrt
  have ha : 0 < qeLowA fn p x0 dt := by
    rw [qeLowA]
    exact div_pos hm (by linarith)
  refine ⟨ha, ?_⟩
  rw [qeA_eq_zero]
  exact one_div_pos.mpr (by linarith)

/-- C16: in the low-variance regime (`m > 0`, `0 < psi < 1.5`) `evolve` returns
`a*(b + shock)^2` with `b^2 = 2/psi - 1 + sqrt((2/psi)*(2/psi - 1))` and `a = m/(1 + b^2)`,
and these match the first two moments: `a*(1 + b^2) = m` and `2*a^2*(1 + 2*b^2) = s2`.  The
square root is taken non-negative with `sqrt(y)^2 = y` on the non-negative numbers. -/
theorem evolve_low_variance (fn : Functions R) (p : CoxIngersollRossProcess R)
    (t0 x0 dt dw : R)
    (hd : p.discretization_ = Discretization.QuadraticExponentialMartingale)
    (hm : 0 < qeM fn p x0 dt) (hpsi0 : 0 < qePsi fn p x0 dt) (hpsi : qePsi fn p x0 dt < 3 / 2)
    (hsq : ∀ y : R, 0 ≤ y → 0 ≤ fn.sqrt y ∧ fn.sqrt y * fn.sqrt y = y) :
    evolve fn p t0 x0 dt dw = .ok (qeLowA fn p x0 dt * (qeB fn p x0 dt + dw) ^ 2) ∧
    qeB fn p x0 dt ^ 2
      = 2 / qePsi fn p x0 dt - 1
        + fn.sqrt (2 / qePsi fn p x0 dt * (2 / qePsi fn p x0 dt - 1)) ∧
    qeLowA fn p x0 dt = qeM fn p x0 dt / (1 + qeB fn p x0 dt ^ 2) ∧
    qeLowA fn p x0 dt * (1 + qeB fn p x0 dt ^ 2) = qeM fn p x0 dt ∧
    2 * qeLowA fn p x0 dt ^ 2 * (1 + 2 * qeB fn p x0 dt ^ 2) = qeS2 fn p x0 dt := by
  have hsqrt : ∀ y : R, 0 ≤ y → 0 ≤ fn.sqrt y := fun y hy => (hsq y hy).1
  obtain ⟨harg, hb2⟩ := qe_low_b2_pos fn p x0 dt hpsi0 hpsi hsqrt
  obtain ⟨_, hreq⟩ := qe_low_requirement fn p x0 dt hm hpsi0 hpsi hsqrt
  have hbb : qeB fn p x0 dt ^ 2 = qeB2 fn p x0 dt := by
    rw [pow_two, qeB]
    exact (hsq _ (le_of_lt hb2)).2
  have h1b : (1 + qeB2 fn p x0 dt) ≠ 0 := by
    have : 0 < 1 + qeB2 fn p x0 dt := by linarith
    exact ne_of_gt this
  have hmne : qeM fn p x0 dt ≠ 0 := ne_of_gt hm
  have hpne : qePsi fn p x0 dt ≠ 0 := ne_of_gt hpsi0
  have ha : qeLowA fn p x0 dt * (1 + qeB2 fn p x0 dt) = qeM fn p x0 dt := by
    rw [qeLowA, div_mul_cancel₀ _ h1b]
  refine ⟨?_, ?_, ?_, ?_, ?_⟩
  · rw [evolve_quadraticExponential_eq fn p t0 x0 dt dw hd, if_pos hpsi, if_pos hreq,
      if_pos (le_of_lt hb2), pow_two, mul_assoc]
  · rw [hbb, qeB2]
  · rw [hbb, qeLowA]
  · rw [hbb, ha]
  · -- the second moment: with `x = 2/psi` and `r^2 = x*(x-1)`, `x*(1+2*b2) = (1+b2)^2`
    rw [hbb]
    have hr := (hsq _ harg).2
    have hs2 : qeS2 fn p x0 dt = qePsi fn p x0 dt * (qeM fn p x0 dt * qeM fn p x0 dt) := by
      rw [qePsi, div_mul_cancel₀ _ (mul_ne_zero hmne hmne)]
    have hkey : 2 / qePsi fn p x0 dt * (1 + 2 * qeB2 fn p x0 dt)
        = (1 + qeB2 fn p x0 dt) * (1 + qeB2 fn p x0 dt) := by
      rw [qeB2]
      linear_combination -hr
    have hkey' : 2 * (1 + 2 * qeB2 fn p x0 dt)
        = qePsi fn p x0 dt * ((1 + qeB2 fn p x0 dt) * (1 + qeB2 fn p x0 dt)) := by
      rw [← hkey]
      field_simp
    rw [hs2, ← ha]
    linear_combination (qeLowA fn p x0 dt) ^ 2 * hkey'

theorem evolve_low_variance_witness :
    ∃ a b : ℝ,
      evolve ({ exp := fun x => 1 + x, sqrt := Real.sqrt, log := Real.log,
                cumulativeNormal := fun _ => 1 / 2,
                inverseNonCentralChiSquare := fun _ _ _ _ => Except.ok 0,
                variance := fun _ x0 dt => x0 * dt } : Functions ℝ)
          ({ x0_ := 1, speed_ := 1, level_ := 1, volatility_ := 1,
             discretization_ := Discretization.QuadraticExponentialMartingale } :
            CoxIngersollRossProcess ℝ) 0 1 (1 / 2) 0
        = .ok (a * (b + 0) ^ 2) ∧
      a * (1 + b ^ 2) = 1 ∧ 2 * a ^ 2 * (1 + 2 * b ^ 2) = 3 / 8 :=
  have h := evolve_low_variance
    ({ exp := fun x => 1 + x, sqrt := Real.sqrt, log := Real.log,
       cumulativeNormal := fun _ => 1 / 2,
       inverseNonCentralChiSquare := fun _ _ _ _ => Except.ok 0,
       variance := fun _ x0 dt => x0 * dt } : Functions ℝ)
    ({ x0_ := 1, speed_ := 1, level_ := 1, volatility_ := 1,
       discretization_ := Discretization.QuadraticExponentialMartingale } :
      CoxIngersollRossProcess ℝ) 0 1 (1 / 2) 0 rfl
    (by norm_num [qeM]) (by norm_num [qePsi, qeS2, qeM]) (by norm_num [qePsi, qeS2, qeM])
    (fun y hy => ⟨Real.sqrt_nonneg y, Real.mul_self_sqrt hy⟩)
  ⟨_, _, h.1, by rw [h.2.2.2.1]; norm_num [qeM], by rw [h.2.2.2.2]; norm_num [qeS2]⟩

/-- C14: from the degenerate start `x0 = 0`, with `speed > 0`, `level > 0`, `volatility > 0`,
`dt > 0` and any shock, `evolve` under `FullTruncation` and under
`QuadraticExponentialMartingale` raises no error and returns a value `≥ 0`.  The exponential
is taken below 1 on the negative numbers, the square root non-negative on the non-negative
numbers, the logarithm non-negative from 1 on, the distribution function below 1 at the
shock. -/
theorem evolve_from_zero (fn : Functions R) (p : CoxIngersollRossProcess R) (t0 dt dw : R)
    (hd : p.discretization_ = Discretization.FullTruncation ∨
      p.discretization_ = Discretization.QuadraticExponentialMartingale)
    (hs : 0 < p.speed_) (hl : 0 < p.level_) (hv : 0 < p.volatility_) (hdt : 0 < dt)
    (hexp : ∀ y : R, y < 0 → fn.exp y < 1)
    (hsqrt : ∀ y : R, 0 ≤ y → 0 ≤ fn.sqrt y)
    (hlog : ∀ y : R, 1 ≤ y → 0 ≤ fn.log y) (hcdf : fn.cumulativeNormal dw < 1) :
    ∃ v : R, evolve fn p t0 0 dt dw = .ok v ∧ 0 ≤ v := by
  rcases hd with hd | hd
  · obtain ⟨v, hv1, hv2, _⟩ := evolve_fullTruncation_value fn p t0 0 dt dw hd
    exact ⟨v, hv1, hv2⟩
  · have hneg : -p.speed_ * dt < 0 := by
      have := mul_pos hs hdt
      linarith
    have hex : 0 < 1 - fn.exp (-p.speed_ * dt) := by
      have := hexp _ hneg
      linarith
    have hm : 0 < qeM fn p 0 dt := by
      have : qeM fn p 0 dt = p.level_ * (1 - fn.exp (-p.speed_ * dt)) := by
        rw [qeM]; ring
      rw [this]
      exact mul_pos hl hex
    have hs2 : 0 < qeS2 fn p 0 dt := by
      have : qeS2 fn p 0 dt = p.level_ * p.volatility_ * p.volatility_ / (2 * p.speed_)
          * (1 - fn.exp (-p.speed_ * dt)) * (1 - fn.exp (-p.speed_ * dt)) := by
        rw [qeS2]
        simp only [zero_mul, zero_div, zero_add]
      rw [this]
      exact mul_pos (mul_pos (div_pos (mul_pos (mul_pos hl hv) hv) (by linarith)) hex) hex
    have hpsi0 : 0 < qePsi fn p 0 dt := by
      rw [qePsi]
      exact div_pos hs2 (mul_pos hm hm)
    rw [evolve_quadraticExponential_eq fn p t0 0 dt dw hd]
    by_cases hpsi : qePsi fn p 0 dt < 3 / 2
    · obtain ⟨ha, hreq⟩ := qe_low_requirement fn p 0 dt hm hpsi0 hpsi hsqrt
      obtain ⟨_, hb2⟩ := qe_low_b2_pos fn p 0 dt hpsi0 hpsi hsqrt
      rw [if_pos hpsi, if_pos hreq, if_pos (le_of_lt hb2)]
      refine ⟨_, rfl, ?_⟩
      rw [mul_assoc]
      exact mul_nonneg (le_of_lt ha) (mul_self_nonneg _)
    · obtain ⟨hp, hbeta⟩ := qe_high_beta_pos fn p 0 dt hm (not_lt.mp hpsi)
      rw [if_neg hpsi, qeA_eq_zero, if_pos hbeta]
      refine ⟨_, rfl, ?_⟩
      split_ifs with hu
      · exact le_refl 0
      · have hu' := not_le.mp hu
        have h1u : 0 < 1 - fn.cumulativeNormal dw := by linarith
        refine div_nonneg (hlog _ ?_) (le_of_lt hbeta)
        rw [le_div_iff₀ h1u]
        linarith

theorem evolve_from_zero_witness :
    evolve sampleFunctions quadraticProcess 0 0 (1 / 2) 0 = .ok (225 / 32) ∧
    ∃ v : ℚ, evolve sampleFunctions quadraticProcess 0 0 (1 / 2) 0 = .ok v ∧ 0 ≤ v :=
  ⟨by norm_num [evolve, evolveQuadraticExponential, sampleFunctions, quadraticProcess],
    evolve_from_zero sampleFunctions quadraticProcess 0 (1 / 2) 0 (Or.inr rfl)
      (by norm_num [quadraticProcess]) (by norm_num [quadraticProcess])
      (by norm_num [quadraticProcess]) (by norm_num)
      (fun y hy => by simpa [sampleFunctions] using hy)
      (fun y hy => by simpa [sampleFunctions] using hy)
      (fun y hy => by simpa [sampleFunctions] using hy)
      (by norm_num [sampleFunctions])⟩

end LowVarianceClaims

/-! ## Round trip of the plain scheme -/

section RoundTrip

end RoundTrip

/-! ## The repair pass as a running minimum -/

section RunningMinimum

variable {R : Type} [LinearOrderedField R]

theorem clamp_eq_min (prev x : R) : (if x > prev then prev else x) = min prev x := by
  split_ifs with h
  · rw [min_eq_left (le_of_lt h)]
  · rw [min_eq_right (not_lt.mp h)]

/-- The entry `i` of the clamped list is the minimum of the start value and the first `i + 1`
raw values. -/
theorem clampFrom_getElem? (xs : List R) :
    ∀ (prev : R) (i : Nat), i < xs.length →
      (clampFrom prev xs)[i]? = some ((xs.take (i + 1)).foldl min prev) := by
  induction xs with
  | nil => intro prev i hi; simp at hi
  | cons x xs ih =>
    intro prev i hi
    cases i with
    | zero => simp [clampFrom, clamp_eq_min]
    | succ i =>
      have hi' : i < xs.length := by simpa using hi
      simp only [clampFrom, List.getElem?_cons_succ, List.take_succ_cons, List.foldl_cons]
      rw [ih _ i hi', clamp_eq_min]

theorem clampFrom_le (xs : List R) : ∀ (prev q : R), q ∈ clampFrom prev xs → q ≤ prev := by
  induction xs with
  | nil => intro prev q hq; simp [clampFrom] at hq
  | cons x xs ih =>
    intro prev q hq
    simp only [clampFrom, List.mem_cons, clamp_eq_min] at hq
    rcases hq with hq | hq
    · rw [hq]; exact min_le_left _ _
    · exact le_trans (ih _ q hq) (min_le_left _ _)

/-- A list that already descends from the start value is left as it is. -/
theorem clampFrom_of_chain (xs : List R) :
    ∀ prev : R, List.Chain (fun a b => b ≤ a) prev xs → clampFrom prev xs = xs := by
  induction xs with
  | nil => intro prev _; rfl
  | cons x xs ih =>
    intro prev h
    rw [List.chain_cons] at h
    have hx : (if x > prev then prev else x) = x := by
      rw [if_neg (not_lt.mpr h.1)]
    simp only [clampFrom, hx]
    rw [ih x h.2]

/-- C21: the repair pass computes the running minimum.  For every raw sequence the repaired
probability at index `i` (index 0 being the anchor) is `min(1, r_1, …, r_i)`; every repaired
probability is `≤ 1`; a raw sequence that is non-increasing with values `≤ 1` is left
unchanged. -/
theorem repair_running_minimum (raw : List R) :
    (∀ i : Nat, i ≤ raw.length →
      (repair (1 :: raw))[i]? = some ((raw.take i).foldl min 1)) ∧
    (∀ q : R, q ∈ repair (1 :: raw) → q ≤ 1) ∧
    ((∀ q : R, q ∈ raw → q ≤ 1) → List.Chain' (fun a b => b ≤ a) raw →
      repair (1 :: raw) = 1 :: raw) := by
  rw [repair_cons]
  refine ⟨?_, ?_, ?_⟩
  · intro i hi
    cases i with
    | zero => simp
    | succ i =>
      rw [List.getElem?_cons_succ]
      exact clampFrom_getElem? raw 1 i (by omega)
  · intro q hq
    rw [List.mem_cons] at hq
    rcases hq with hq | hq
    · exact le_of_eq hq
    · exact clampFrom_le raw 1 q hq
  · intro hle hchain
    rw [clampFrom_of_chain raw 1]
    cases raw with
    | nil => exact List.Chain.nil
    | cons x xs =>
      exact List.Chain.cons (hle x (List.mem_cons_self x xs)) hchain

end RunningMinimum

/-! ## The curve step and the curve dates -/

section StepLemmas

variable {R : Type} [LinearOrderedField R]

/-- With `T ≠ t` the step `dt = (T-t)/((T-t)*4)` is one quarter. -/
theorem curveDt_eq_quarter (c : Collaborators R) (h : exerciseTime c ≠ maturityTime c) :
    curveDt c = 1 / 4 := by
  have hne : maturityTime c - exerciseTime c ≠ 0 := sub_ne_zero.mpr (Ne.symm h)
  rw [curveDt, nCurveSteps]
  field_simp

end StepLemmas

section QuarterClaims

variable {R : Type} [LinearOrderedField R] [FloorRing R]

/-- With the step one quarter, the date of iteration `j` lies `⌊91.25 j⌋` days after the
exercise date. -/
theorem curveDate_quarter (c : Collaborators R) (j : Nat) :
    curveDate c (1 / 4) j = c.exerciseDate + ⌊(365 / 4 : R) * (j : R)⌋ := by
  have h0 : (0 : R) ≤ (j : R) * (1 / 4) * 365 := by positivity
  have he : (j : R) * (1 / 4) * 365 = (365 / 4 : R) * (j : R) := by ring
  rw [curveDate, toSerial, if_pos h0, he]

/-- The dates of consecutive iterations are at least 91 days apart. -/
theorem curveDate_quarter_lt (c : Collaborators R) (j : Nat) :
    curveDate c (1 / 4) j < curveDate c (1 / 4) (j + 1) := by
  rw [curveDate_quarter, curveDate_quarter]
  have hstep : ⌊(365 / 4 : R) * (j : R)⌋ + 91 ≤ ⌊(365 / 4 : R) * ((j + 1 : Nat) : R)⌋ := by
    rw [← Int.floor_add_int]
    apply Int.floor_mono
    push_cast
    linarith
  linarith

/-- The dates handed to the curve constructor, the step being one quarter, increase
strictly. -/
theorem curve_dates_chain (c : Collaborators R) (n : Nat) :
    List.Chain' (fun a b : Int => a < b)
      (c.exerciseDate :: (List.range' 1 n).map (curveDate c (1 / 4))) := by
  have h0 : curveDate c (1 / 4) 0 = c.exerciseDate := by
    rw [curveDate_quarter]
    simp
  have hl : c.exerciseDate :: (List.range' 1 n).map (curveDate c (1 / 4))
      = (List.range (n + 1)).map (curveDate c (1 / 4)) := by
    rw [List.range_eq_range', List.range'_succ, List.map_cons, h0]
  rw [hl, List.chain'_map, List.chain'_range_succ]
  intro m _
  exact curveDate_quarter_lt c m

/-- C22: for every exercise time `t` and maturity `T > t` the curve step of `calculate` is
exactly `1/4`, the `j`-th curve date is `exerciseDate + ⌊91.25 j⌋` days, and the dates handed
to the curve constructor increase strictly, so no date occurs twice. -/
theorem curve_dates_quarterly (c : Collaborators R) (x : R) (ds : List Int) (ps : List R)
    (hT : exerciseTime c < maturityTime c)
    (h : curveInputs c (exerciseTime c) (curveDt c) (nCurveSteps c) x = .ok (ds, ps)) :
    curveDt c = 1 / 4 ∧
    (∀ j : Nat, curveDate c (curveDt c) j = c.exerciseDate + ⌊(365 / 4 : R) * (j : R)⌋) ∧
    List.Chain' (fun a b : Int => a < b) ds ∧ ds.Nodup := by
  have hdt := curveDt_eq_quarter c (ne_of_lt hT)
  obtain ⟨hd, _⟩ := curveInputs_ok_shape c _ _ _ x ds ps h
  rw [hdt] at hd
  have hchain : List.Chain' (fun a b : Int => a < b) ds := by
    rw [hd]
    exact curve_dates_chain c _
  refine ⟨hdt, ?_, hchain, ?_⟩
  · intro j
    rw [hdt]
    exact curveDate_quarter c j
  · have hp : List.Pairwise (fun a b : Int => a < b) ds := List.chain'_iff_pairwise.mp hchain
    exact hp.imp (fun hab => ne_of_lt hab)

theorem curve_dates_quarterly_witness :
    curveInputs sampleCollaborators (exerciseTime sampleCollaborators)
      (curveDt sampleCollaborators) (nCurveSteps sampleCollaborators) 0
        = .ok ([360, 451, 542], [1, 3 / 4, 1 / 2]) ∧
    curveDt sampleCollaborators = 1 / 4 ∧
    (∀ j : Nat, curveDate sampleCollaborators (curveDt sampleCollaborators) j
      = sampleCollaborators.exerciseDate + ⌊(365 / 4 : ℚ) * (j : ℚ)⌋) ∧
    List.Chain' (fun a b : Int => a < b) [360, 451, 542] ∧
    ([360, 451, 542] : List Int).Nodup :=
  have h0 : curveInputs sampleCollaborators (exerciseTime sampleCollaborators)
      (curveDt sampleCollaborators) (nCurveSteps sampleCollaborators) 0
        = .ok ([360, 451, 542], [1, 3 / 4, 1 / 2]) := by
    rw [sample_exerciseTime, sample_curveDt, sample_nCurveSteps,
      sample_curveInputs sampleCollaborators rfl rfl]
    norm_num [clampFrom]
  ⟨h0, curve_dates_quarterly sampleCollaborators 0 [360, 451, 542] [1, 3 / 4, 1 / 2]
    (by rw [sample_exerciseTime]; norm_num [maturityTime, sampleCollaborators, actual360]) h0⟩

end QuarterClaims

/-! ## The martingale requirement -/

section MartingaleClaims

variable {R : Type} [LinearOrderedField R]

end MartingaleClaims

/-! ## A fractional sample count -/

section FractionalClaims

variable {R : Type} [LinearOrderedField R] [FloorRing R]

/-- When the sample count is positive and the trials all return, `calculate` runs
`⌈nSamples_⌉₊` of them and writes the sum of the floored payoffs divided by `nSamples_`. -/
theorem calculate_ceil (e : McCirCdsOptionEngine R) (c : Collaborators R)
    (results_ : Results R) (npv : Nat → R) (hn : 0 < e.nSamples_)
    (htr : ∀ i : Nat, i < ⌈e.nSamples_⌉₊ →
      trial e c (exerciseTime c) (curveDt c) (nCurveSteps c) i = .ok (npv i)) :
    runSamples e c
      = .ok (⌈e.nSamples_⌉₊, ∑ i in Finset.range ⌈e.nSamples_⌉₊, max (npv i) 0) ∧
    calculate e c results_
      = (.ok (), { value := some ((∑ i in Finset.range ⌈e.nSamples_⌉₊, max (npv i) 0)
                                    / e.nSamples_) }) := by
  have hrun : runSamples e c
      = .ok (⌈e.nSamples_⌉₊, ∑ i in Finset.range ⌈e.nSamples_⌉₊, max (npv i) 0) := by
    have h := sampleLoop_total e c (exerciseTime c) (curveDt c) (nCurveSteps c) npv htr
      ⌈e.nSamples_⌉₊ 0 (by omega)
    simpa [runSamples] using h
  obtain ⟨next, hgen⟩ := cirRsg_of_trial e c _ _ _ 0 (npv 0)
    (htr 0 (Nat.lt_ceil.mpr (by simpa using hn)))
  refine ⟨hrun, ?_⟩
  rw [calculate_of_ok e c results_ next _ _ hgen hrun, realDiv_of_ne _ _ (ne_of_gt hn)]

/-- C24, as the code has it: for every `nSamples > 0` whose trials return, `calculate` runs
`⌈nSamples⌉` trials and divides the sum of the floored payoffs by `nSamples` itself; the value
equals the mean of the floored payoffs over the trials run exactly when `nSamples` is a whole
number or the floored sum is `0`. -/
theorem calculate_ceil_trials (e : McCirCdsOptionEngine R) (c : Collaborators R)
    (results_ : Results R) (npv : Nat → R) (hn : 0 < e.nSamples_)
    (htr : ∀ i : Nat, i < ⌈e.nSamples_⌉₊ →
      trial e c (exerciseTime c) (curveDt c) (nCurveSteps c) i = .ok (npv i)) :
    runSamples e c
      = .ok (⌈e.nSamples_⌉₊, ∑ i in Finset.range ⌈e.nSamples_⌉₊, max (npv i) 0) ∧
    calculate e c results_
      = (.ok (), { value := some ((∑ i in Finset.range ⌈e.nSamples_⌉₊, max (npv i) 0)
                                    / e.nSamples_) }) ∧
    ((∑ i in Finset.range ⌈e.nSamples_⌉₊, max (npv i) 0) / e.nSamples_
        = (∑ i in Finset.range ⌈e.nSamples_⌉₊, max (npv i) 0) / (⌈e.nSamples_⌉₊ : R) ↔
      e.nSamples_ = (⌈e.nSamples_⌉₊ : R) ∨
        (∑ i in Finset.range ⌈e.nSamples_⌉₊, max (npv i) 0) = 0) := by
  obtain ⟨hrun, hcalc⟩ := calculate_ceil e c results_ npv hn htr
  refine ⟨hrun, hcalc, ?_⟩
  have hle : e.nSamples_ ≤ (⌈e.nSamples_⌉₊ : R) := Nat.le_ceil _
  have hN : (0 : R) < (⌈e.nSamples_⌉₊ : R) := lt_of_lt_of_le hn hle
  rw [div_eq_div_iff (ne_of_gt hn) (ne_of_gt hN)]
  constructor
  · intro h
    have h' : (∑ i in Finset.range ⌈e.nSamples_⌉₊, max (npv i) 0)
        * ((⌈e.nSamples_⌉₊ : R) - e.nSamples_) = 0 := by
      rw [mul_sub, h, sub_self]
    rcases mul_eq_zero.mp h' with h0 | h0
    · exact Or.inr h0
    · exact Or.inl (sub_eq_zero.mp h0).symm
  · rintro (h | h)
    · rw [← h]
    · rw [h, zero_mul, zero_mul]

end FractionalClaims

section FractionalEvaluation

theorem fractional_ceil : ⌈fractionalEngine.nSamples_⌉₊ = 3 := by
  have h : fractionalEngine.nSamples_ = 5 / 2 := rfl
  rw [h, Nat.ceil_eq_iff (by norm_num)]
  norm_num

theorem worthless_trials (e : McCirCdsOptionEngine ℚ) (i : Nat) (hi : i < 3) :
    trial e worthlessCollaborators (exerciseTime worthlessCollaborators)
      (curveDt worthlessCollaborators) (nCurveSteps worthlessCollaborators) i
        = .ok (worthlessNpv i) := by
  have ht : exerciseTime worthlessCollaborators = 1 := by
    norm_num [exerciseTime, worthlessCollaborators, sampleCollaborators, actual360]
  have hn : nCurveSteps worthlessCollaborators = 2 := by
    norm_num [nCurveSteps, exerciseTime, maturityTime, worthlessCollaborators,
      sampleCollaborators, actual360]
  have hdt : curveDt worthlessCollaborators = 1 / 4 := by
    norm_num [curveDt, nCurveSteps, exerciseTime, maturityTime, worthlessCollaborators,
      sampleCollaborators, actual360]
  have hx : worthlessCollaborators.cirValue e.seed_ i = .ok (i : ℚ) := rfl
  rw [ht, hn, hdt, trial, hx]
  simp only [sample_curveInputs worthlessCollaborators rfl rfl]
  interval_cases i <;> norm_num [worthlessCollaborators, sampleCollaborators, clampFrom,
    worthlessNpv]

theorem worthless_floored_sum : (∑ i in Finset.range 3, max (worthlessNpv i) 0) = 0 := by
  simp only [Finset.sum_range_succ, Finset.sum_range_zero, worthlessNpv]
  norm_num

theorem calculate_ceil_trials_witness :
    ⌈fractionalEngine.nSamples_⌉₊ = 3 ∧
    (∑ i in Finset.range 3, max (sampleNpv i) 0) = 1 ∧
    (runSamples fractionalEngine sampleCollaborators
        = .ok (⌈fractionalEngine.nSamples_⌉₊,
            ∑ i in Finset.range ⌈fractionalEngine.nSamples_⌉₊, max (sampleNpv i) 0) ∧
      calculate fractionalEngine sampleCollaborators emptyResults
        = (.ok (),
            { value := some ((∑ i in Finset.range ⌈fractionalEngine.nSamples_⌉₊,
                max (sampleNpv i) 0) / fractionalEngine.nSamples_) }) ∧
      ((∑ i in Finset.range ⌈fractionalEngine.nSamples_⌉₊, max (sampleNpv i) 0)
          / fractionalEngine.nSamples_
        = (∑ i in Finset.range ⌈fractionalEngine.nSamples_⌉₊, max (sampleNpv i) 0)
          / (⌈fractionalEngine.nSamples_⌉₊ : ℚ) ↔
        fractionalEngine.nSamples_ = (⌈fractionalEngine.nSamples_⌉₊ : ℚ) ∨
          (∑ i in Finset.range ⌈fractionalEngine.nSamples_⌉₊, max (sampleNpv i) 0) = 0)) :=
  ⟨fractional_ceil, sample_floored_sum,
    calculate_ceil_trials fractionalEngine sampleCollaborators emptyResults sampleNpv
      (by norm_num [fractionalEngine])
      (fun i hi => sample_trials _ i (by rw [fractional_ceil] at hi; exact hi))⟩

/-- C24 fails as stated: with `nSamples = 2.5` and three trials whose payoffs are all
negative, the value written is `0`, which is the mean of the floored payoffs, although `2.5`
is not a whole number. -/
theorem mean_only_when_whole_counterexample :
    runSamples fractionalEngine worthlessCollaborators = .ok (3, 0) ∧
    calculate fractionalEngine worthlessCollaborators emptyResults
      = (.ok (), { value := some 0 }) ∧
    (∑ i in Finset.range 3, max (worthlessNpv i) 0) / ((3 : Nat) : ℚ) = 0 ∧
    ∀ k : Nat, fractionalEngine.nSamples_ ≠ (k : ℚ) := by
  have h := calculate_ceil fractionalEngine worthlessCollaborators emptyResults worthlessNpv
    (by norm_num [fractionalEngine]) (fun i hi => worthless_trials _ i (by rw [fractional_ceil] at hi; exact hi))
  rw [fractional_ceil, worthless_floored_sum] at h
  refine ⟨h.1, ?_, ?_, ?_⟩
  · rw [h.2, zero_div]
  · rw [worthless_floored_sum, zero_div]
  · intro k hk
    have h52 : fractionalEngine.nSamples_ = 5 / 2 := rfl
    rw [h52] at hk
    have h2 : ((2 * k : Nat) : ℚ) = 5 := by
      push_cast
      linarith
    have h3 : 2 * k = 5 := by exact_mod_cast h2
    omega

end FractionalEvaluation

/-! ## A negative start under the quadratic-exponential scheme -/

section NegativeStart

/-- C7 fails as stated: with speed, level and volatility 1, `x0 = -3/4` and `dt = log 2`
(so that `exp(-speed*dt) = 1/2`), `m = 1/8 > 0` and `s2 = -1/16 < 0`, hence `psi = -4` and
`b2 = -3/2 + sqrt(3/4) < 0`, while `a > 0` passes the `QL_REQUIRE`: `evolve` returns without
error a value that is not a real number, so not one that is `≥ 0`. -/
theorem evolve_negative_start_counterexample :
    evolve ({ exp := Real.exp, sqrt := Real.sqrt, log := Real.log,
              cumulativeNormal := fun _ => 1 / 2,
              inverseNonCentralChiSquare := fun _ _ _ _ => Except.ok 0,
              variance := fun _ x0 dt => x0 * dt } : Functions ℝ)
        ({ x0_ := 1, speed_ := 1, level_ := 1, volatility_ := 1,
           discretization_ := Discretization.QuadraticExponentialMartingale } :
          CoxIngersollRossProcess ℝ) 0 (-3 / 4) (Real.log 2) 0 = .nan ∧
    ¬ ∃ v : ℝ,
      evolve ({ exp := Real.exp, sqrt := Real.sqrt, log := Real.log,
                cumulativeNormal := fun _ => 1 / 2,
                inverseNonCentralChiSquare := fun _ _ _ _ => Except.ok 0,
                variance := fun _ x0 dt => x0 * dt } : Functions ℝ)
          ({ x0_ := 1, speed_ := 1, level_ := 1, volatility_ := 1,
             discretization_ := Discretization.QuadraticExponentialMartingale } :
            CoxIngersollRossProcess ℝ) 0 (-3 / 4) (Real.log 2) 0 = .ok v ∧ 0 ≤ v := by
  have hex : Real.exp (-(1 : ℝ) * Real.log 2) = 1 / 2 := by
    rw [neg_one_mul, Real.exp_neg, Real.exp_log (by norm_num)]
    norm_num
  have hm : qeM
        ({ exp := Real.exp, sqrt := Real.sqrt, log := Real.log,
           cumulativeNormal := fun _ => 1 / 2,
           inverseNonCentralChiSquare := fun _ _ _ _ => Except.ok 0,
           variance := fun _ x0 dt => x0 * dt } : Functions ℝ)
        ({ x0_ := 1, speed_ := 1, level_ := 1, volatility_ := 1,
           discretization_ := Discretization.QuadraticExponentialMartingale } :
          CoxIngersollRossProcess ℝ) (-3 / 4) (Real.log 2) = 1 / 8 := by
    simp only [qeM]
    rw [hex]
    norm_num
  have hpsi : qePsi
        ({ exp := Real.exp, sqrt := Real.sqrt, log := Real.log,
           cumulativeNormal := fun _ => 1 / 2,
           inverseNonCentralChiSquare := fun _ _ _ _ => Except.ok 0,
           variance := fun _ x0 dt => x0 * dt } : Functions ℝ)
        ({ x0_ := 1, speed_ := 1, level_ := 1, volatility_ := 1,
           discretization_ := Discretization.QuadraticExponentialMartingale } :
          CoxIngersollRossProcess ℝ) (-3 / 4) (Real.log 2) = -4 := by
    rw [qePsi, hm]
    simp only [qeS2]
    rw [hex]
    norm_num
  have hroot1 : Real.sqrt (3 / 4) < 1 := by
    rw [Real.sqrt_lt' (by norm_num)]
    norm_num
  have hroot2 : 1 / 2 < Real.sqrt (3 / 4) := by
    rw [Real.lt_sqrt (by norm_num)]
    norm_num
  have hb2 : qeB2
        ({ exp := Real.exp, sqrt := Real.sqrt, log := Real.log,
           cumulativeNormal := fun _ => 1 / 2,
           inverseNonCentralChiSquare := fun _ _ _ _ => Except.ok 0,
           variance := fun _ x0 dt => x0 * dt } : Functions ℝ)
        ({ x0_ := 1, speed_ := 1, level_ := 1, volatility_ := 1,
           discretization_ := Discretization.QuadraticExponentialMartingale } :
          CoxIngersollRossProcess ℝ) (-3 / 4) (Real.log 2) = -3 / 2 + Real.sqrt (3 / 4) := by
    rw [qeB2, hpsi]
    norm_num
  have hnan : evolve
        ({ exp := Real.exp, sqrt := Real.sqrt, log := Real.log,
           cumulativeNormal := fun _ => 1 / 2,
           inverseNonCentralChiSquare := fun _ _ _ _ => Except.ok 0,
           variance := fun _ x0 dt => x0 * dt } : Functions ℝ)
        ({ x0_ := 1, speed_ := 1, level_ := 1, volatility_ := 1,
           discretization_ := Discretization.QuadraticExponentialMartingale } :
          CoxIngersollRossProcess ℝ) 0 (-3 / 4) (Real.log 2) 0 = .nan := by
    rw [evolve_quadraticExponential_eq _ _ _ _ _ _ rfl, qeA_eq_zero, hpsi,
      if_pos (by norm_num), qeLowA, hm, hb2, if_pos, if_neg]
    · linarith
    · apply one_div_pos.mpr
      apply mul_pos (by norm_num)
      apply div_pos (by norm_num)
      linarith
  refine ⟨hnan, ?_⟩
  rintro ⟨v, hv, _⟩
  rw [hnan] at hv
  cases hv

end NegativeStart

end QuantLib
